import Mathlib

set_option maxRecDepth 16000

/-!
Verification development for the AI presentation generator's text-recovery
core (`src/app.py`): the outline recovery function `extract_clean_outline`,
the HTML document reconstructor `final_cleanup`, and the outline structural
parser `FudanStylePPTGenerator._parse_outline`, together with the
title/purpose defaulting done by `_create_fudan_style_slide`.

Strings are modelled as `List Char` (`Str`). Python string primitives
(`strip`, `find`, `rfind`, slicing, `split`, `startswith`, `endswith`) are
embedded as executable list functions, and the three regex substitutions of
`final_cleanup` as well as the two regex searches of the parser are embedded
as character-level scanners that realize exactly the concrete patterns the
source uses (`r"```html\s*"`, `r"```\s*$"` (MULTILINE), `r"^```.*?\n"`
(MULTILINE), `r"\*\*\s*Slide\s*:\s*\*\*"`, `r"\*\*(.*?)\*\*"`).
Case-insensitive literal searches (`</html>`, `</body>` with re.IGNORECASE)
are embedded by ASCII-lowering the haystack and searching for the (already
lowercase) literal.
-/

namespace PPTApp

/-- Strings of the Python program, modelled as lists of characters. -/
abbrev Str := List Char

/-- Convert a Lean string literal to the `Str` model. -/
def str (s : String) : Str := s.data

/-- Python's whitespace set for `str.strip` and the regex class `\s`
(ASCII part, which is all the source's patterns and tokens use). -/
def isPyWs (c : Char) : Bool :=
  c == ' ' || c == '\t' || c == '\n' || c == '\r' || c == '\x0b' || c == '\x0c'

/-- Python `s.lstrip()`. -/
def lstrip (s : Str) : Str := s.dropWhile isPyWs

/-- Python `s.rstrip()`. -/
def rstrip (s : Str) : Str := (s.reverse.dropWhile isPyWs).reverse

/-- Python `s.strip()`. -/
def pyStrip (s : Str) : Str := rstrip (lstrip s)

/-- ASCII lowering of one character, as Python's case-insensitive regex
matching does for the ASCII literals `</html>` and `</body>`. -/
def lowerChar (c : Char) : Char :=
  if 'A' ≤ c && c ≤ 'Z' then Char.ofNat (c.toNat + 32) else c

/-- ASCII lowering of a string. -/
def lowerStr (s : Str) : Str := s.map lowerChar

/-- Python `s.find(pat)`: index of the first occurrence of `pat` in `s`,
`none` when absent (Python returns -1). -/
def findSub : Str → Str → Option Nat
  | [], pat => if pat.isEmpty then some 0 else none
  | c :: rest, pat =>
    if pat.isPrefixOf (c :: rest) then some 0
    else (findSub rest pat).map (· + 1)

/-- Python `s.rfind(pat)`: index of the last occurrence of `pat` in `s`,
`none` when absent. -/
def rfindSub : Str → Str → Option Nat
  | [], pat => if pat.isEmpty then some 0 else none
  | c :: rest, pat =>
    match rfindSub rest pat with
    | some i => some (i + 1)
    | none => if pat.isPrefixOf (c :: rest) then some 0 else none

/-- Python slice `s[a:b]` for natural bounds. -/
def pySlice (s : Str) (a b : Nat) : Str := (s.take b).drop a

/-- Python `s.split('\n')`. -/
def splitNl : Str → List Str
  | [] => [[]]
  | c :: rest =>
    match splitNl rest with
    | [] => [[]]
    | l :: ls => if c == '\n' then [] :: l :: ls else (c :: l) :: ls

/-! ### `extract_clean_outline` (src/app.py lines 723-739)

```python
match = re.search(r"\*\*\s*Slide\s*:\s*\*\*", raw_output)
if not match:
    return None
first_slide_pos = match.start()
last_divider_pos = raw_output.rfind("---", 0, first_slide_pos)
cleaned_outline = raw_output[last_divider_pos:] if last_divider_pos != -1 else raw_output[first_slide_pos:]
cleaned_outline = cleaned_outline.strip()
...  # a `**Title:**`-count check that only emits a log warning
return cleaned_outline
```
The title-count check writes a warning to the debug log and does not affect
the returned value, so it is not part of the embedding. -/

/-- Consume the literal `pat` at the head of `s` (regex literal matching). -/
def eatLit (pat s : Str) : Option Str :=
  if pat.isPrefixOf s then some (s.drop pat.length) else none

/-- Does the regex `\*\*\s*Slide\s*:\s*\*\*` match at the head of `s`?
Each greedy `\s*` is followed by a non-whitespace literal, so maximal
whitespace runs are exact (no backtracking is possible). -/
def matchSlideAt (s : Str) : Bool :=
  match eatLit (str "**") s with
  | none => false
  | some s1 =>
    match eatLit (str "Slide") (s1.dropWhile isPyWs) with
    | none => false
    | some s2 =>
      match eatLit (str ":") (s2.dropWhile isPyWs) with
      | none => false
      | some s3 => (str "**").isPrefixOf (s3.dropWhile isPyWs)

/-- `re.search(r"\*\*\s*Slide\s*:\s*\*\*", raw).start()`: position of the
first match of the slide-marker pattern, `none` when the search fails. -/
def findSlideMarker : Str → Option Nat
  | [] => none
  | c :: rest =>
    if matchSlideAt (c :: rest) then some 0
    else (findSlideMarker rest).map (· + 1)

/-- `extract_clean_outline` from src/app.py (the debug-log side effects and
the non-result-affecting title-count warning dropped). `rfind("---", 0, p)`
is `rfind` over the slice `raw[0:p]`. -/
def extract_clean_outline (raw : Str) : Option Str :=
  match findSlideMarker raw with
  | none => none
  | some p =>
    match rfindSub (raw.take p) (str "---") with
    | some d => some (pyStrip (raw.drop d))
    | none => some (pyStrip (raw.drop p))

/-! ### `final_cleanup` (src/app.py lines 742-813) -/

/-- The markdown fence token; all three cleanup patterns require it. -/
def fence : Str := str "```"

/-- `re.sub(r'```html\s*', '', s)`: left-to-right scan removing each
occurrence of `` ```html `` together with the maximal following whitespace
run. `fuel` bounds the number of scan steps (each consumes at least one
character, so `s.length` is always enough). -/
def subFence1 : Nat → Str → Str
  | 0, s => s
  | _ + 1, [] => []
  | fuel + 1, c :: rest =>
    if (str "```html").isPrefixOf (c :: rest) then
      subFence1 fuel (((c :: rest).drop 7).dropWhile isPyWs)
    else c :: subFence1 fuel rest

/-- For `re.sub(r'```\s*$', '', s, flags=re.MULTILINE)`: given the text `t`
after a `` ``` ``, the length of the matched `\s*`, i.e. the largest `j`
such that the first `j` characters of `t` are whitespace and position `j`
is the end of the text or a newline (`$` in MULTILINE mode); `none` when no
such `j` exists (no match at this position). -/
def wsDollar (t : Str) : Option Nat :=
  let m := (t.takeWhile isPyWs).length
  if (t.drop m).isEmpty then some m
  else rfindSub (t.take m) (str "\n")

/-- `re.sub(r'```\s*$', '', s, flags=re.MULTILINE)`. -/
def subFence2 : Nat → Str → Str
  | 0, s => s
  | _ + 1, [] => []
  | fuel + 1, c :: rest =>
    if (str "```").isPrefixOf (c :: rest) then
      match wsDollar ((c :: rest).drop 3) with
      | some j => subFence2 fuel (((c :: rest).drop 3).drop j)
      | none => c :: subFence2 fuel rest
    else c :: subFence2 fuel rest

/-- `re.sub(r'^```.*?\n', '', s, flags=re.MULTILINE)`: removes every line
that starts with `` ``` `` (the `^` anchor is tracked by the `atStart`
flag; `.` does not match a newline, so the lazy `.*?\n` ends at the first
newline after the backticks). -/
def subFence3 : Nat → Bool → Str → Str
  | 0, _, s => s
  | _ + 1, _, [] => []
  | fuel + 1, atStart, c :: rest =>
    if atStart && (str "```").isPrefixOf (c :: rest) then
      match findSub ((c :: rest).drop 3) (str "\n") with
      | some k => subFence3 fuel true (((c :: rest).drop 3).drop (k + 1))
      | none => c :: subFence3 fuel (c == '\n') rest
    else c :: subFence3 fuel (c == '\n') rest

/-- Step 1 of `final_cleanup`: the three markdown-fence substitutions,
applied in the source's order. -/
def mdCleanup (s : Str) : Str :=
  let c1 := subFence1 s.length s
  let c2 := subFence2 c1.length c1
  subFence3 c2.length true c2

/-- The canonical document start token. -/
def doctype : Str := str "<!DOCTYPE html>"

/-- The fallback start token `<html`. -/
def htmlOpen : Str := str "<html"

/-- The end token `</html>` (lowercase; the source searches for it
case-insensitively). -/
def htmlClose : Str := str "</html>"

/-- The inner closing boundary `</body>` (lowercase; searched
case-insensitively). -/
def bodyClose : Str := str "</body>"

/-- The text the source splices in when it synthesizes a missing end tag:
`"\n</html>"`. -/
def nlHtmlClose : Str := str "\n</html>"

/-- Step 2 of `final_cleanup`: `cleaned_html.find("<!DOCTYPE html>")`, with
fallback `cleaned_html.find("<html")`. -/
def findStart (s : Str) : Option Nat :=
  match findSub s doctype with
  | some p => some p
  | none => findSub s htmlOpen

/-- Steps 5-6 of `final_cleanup`: append `"\n</html>"` unless the content
already ends with `</html>`, then require the content to start with
`<!DOCTYPE html>` or `<html` (else the function returns `None`). -/
def finalizeDoc (content : Str) : Option Str :=
  let content2 := if htmlClose.isSuffixOf content then content else content ++ nlHtmlClose
  if doctype.isPrefixOf content2 || htmlOpen.isPrefixOf content2 then some content2 else none

/-- `final_cleanup` from src/app.py (the debug-log side effects dropped).
End-position search: last case-insensitive `</html>` (match end = start+7);
else splice `"\n</html>"` after the last case-insensitive `</body>`
(the new end position is that splice's end, start+7+8); else append
`"\n</html>"` at the very end. The recovered slice is `strip`ped, then
steps 5-6 run (`finalizeDoc`). -/
def final_cleanup (raw : Str) : Option Str :=
  let cleaned := mdCleanup raw
  match findStart cleaned with
  | none => none
  | some start =>
    match rfindSub (lowerStr cleaned) htmlClose with
    | some le => finalizeDoc (pyStrip (pySlice cleaned start (le + 7)))
    | none =>
      match rfindSub (lowerStr cleaned) bodyClose with
      | some b =>
        let cleaned2 := cleaned.take (b + 7) ++ nlHtmlClose ++ cleaned.drop (b + 7)
        finalizeDoc (pyStrip (pySlice cleaned2 start (b + 15)))
      | none =>
        let cleaned2 := cleaned ++ nlHtmlClose
        finalizeDoc (pyStrip (pySlice cleaned2 start cleaned2.length))

/-! ### `_parse_outline` (src/app.py lines 253-306) -/

/-- The `visual` sub-dictionary created by the `**Visual:**` branch. -/
structure VisualSpec where
  type : Str
  data : Str
deriving DecidableEq, Repr

/-- One parsed slide dictionary. Keys that Python sets conditionally are
`Option`s (`none` = key absent); `content` is always set at flush time. -/
structure SlideRecord where
  slide_num : Option Str
  title : Option Str
  purpose : Option Str
  visual : Option VisualSpec
  content : List Str
deriving DecidableEq, Repr

/-- `s.split(sep)[1]`: the text strictly between the first and the second
occurrence of `sep` (to the end when `sep` occurs only once). Python raises
IndexError when `sep` does not occur; every call site's guard guarantees an
occurrence, so that case is unreachable and returns `[]` here. -/
def pySplitIdx1 (sep s : Str) : Str :=
  match findSub s sep with
  | none => []
  | some i =>
    let rest := s.drop (i + sep.length)
    match findSub rest sep with
    | some j => rest.take j
    | none => rest

/-- For `re.sub(r'\*\*(.*?)\*\*', r'\1', line)`: length of the lazy inner
group, i.e. the smallest `j` such that the first `j` characters contain no
newline and `**` stands at position `j`; `none` when there is none. -/
def lazyInner : Str → Option Nat
  | [] => none
  | c :: rest =>
    if (str "**").isPrefixOf (c :: rest) then some 0
    else if c == '\n' then none
    else (lazyInner rest).map (· + 1)

/-- `re.sub(r'\*\*(.*?)\*\*', r'\1', line)`: each non-overlapping
`**...**` pair (lazy inner, no newline inside) is replaced by its inner
text. -/
def removeBold : Nat → Str → Str
  | 0, s => s
  | _ + 1, [] => []
  | fuel + 1, c :: rest =>
    if (str "**").isPrefixOf (c :: rest) then
      match lazyInner ((c :: rest).drop 2) with
      | some j =>
        (((c :: rest).drop 2).take j) ++ removeBold fuel (((c :: rest).drop 2).drop (j + 2))
      | none => c :: removeBold fuel rest
    else c :: removeBold fuel rest

/-- The parser's loop state: the current slide dictionary (four optional
keys), the collected content lines, and the two section flags. -/
structure ParseState where
  slide_num : Option Str
  title : Option Str
  purpose : Option Str
  visual : Option VisualSpec
  content : List Str
  in_content : Bool
  in_visual : Bool
deriving DecidableEq, Repr

/-- The state at loop entry and after each flush. -/
def initState : ParseState :=
  ⟨none, none, none, none, [], false, false⟩

/-- Python's truthiness test `if current_slide:` — the dictionary is
non-empty iff one of its four conditionally-set keys is present. -/
def curNonEmpty (st : ParseState) : Bool :=
  st.slide_num.isSome || st.title.isSome || st.purpose.isSome || st.visual.isSome

/-- The record flushed for the current slide (`current_slide['content'] =
current_content; slides.append(current_slide)`). -/
def mkRec (st : ParseState) : SlideRecord :=
  ⟨st.slide_num, st.title, st.purpose, st.visual, st.content⟩

/-- One iteration of `_parse_outline`'s line loop, mirroring the source's
if/elif chain over the stripped line. Note that when a `---` line is met
while `current_slide` is falsy, Python resets nothing (the resets sit inside
`if current_slide:`), so content and flags leak into the next block. -/
def stepLine (p : ParseState × List SlideRecord) (rawLine : Str) : ParseState × List SlideRecord :=
  let st := p.1
  let acc := p.2
  let line := pyStrip rawLine
  if line.isEmpty then p
  else if line == str "---" then
    if curNonEmpty st then (initState, acc ++ [mkRec st]) else p
  else if (str "**Slide:**").isPrefixOf line then
    ({ st with slide_num := some (pyStrip (pySplitIdx1 (str "**Slide:**") line)) }, acc)
  else if (str "**Title:**").isPrefixOf line then
    ({ st with title := some (pyStrip (pySplitIdx1 (str "**Title:**") line)) }, acc)
  else if (str "**Purpose:**").isPrefixOf line then
    ({ st with purpose := some (pyStrip (pySplitIdx1 (str "**Purpose:**") line)) }, acc)
  else if (str "**Content:**").isPrefixOf line then
    ({ st with in_content := true, in_visual := false }, acc)
  else if (str "**Visual:**").isPrefixOf line then
    ({ st with in_visual := true, in_content := false, visual := some ⟨[], []⟩ }, acc)
  else if (str "  - **Type:**").isPrefixOf line && st.in_visual then
    ({ st with visual := st.visual.map (fun v => { v with type := pyStrip (pySplitIdx1 (str "**Type:**") line) }) }, acc)
  else if (str "  - **Data:**").isPrefixOf line && st.in_visual then
    ({ st with visual := st.visual.map (fun v => { v with data := pyStrip (pySplitIdx1 (str "**Data:**") line) }) }, acc)
  else if (str "- ").isPrefixOf line && st.in_content then
    let cl := pyStrip (line.drop 2)
    ({ st with content := st.content ++ [removeBold cl.length cl] }, acc)
  else p

/-- `FudanStylePPTGenerator._parse_outline` from src/app.py: split on
newlines, fold the line loop, then flush the last slide if non-empty. -/
def parse_outline (outline : Str) : List SlideRecord :=
  let r := (splitNl outline).foldl stepLine (initState, [])
  r.2 ++ (if curNonEmpty r.1 then [mkRec r.1] else [])

/-- `_create_fudan_style_slide` line 331: `slide_data.get('title', '')` —
the title text used for rendering, defaulting to the empty string. -/
def slideTitleText (s : SlideRecord) : Str := s.title.getD []

/-- `_create_fudan_style_slide` line 317: `slide_data.get('purpose',
'Content')` — the purpose used for layout selection, defaulting to
`"Content"`. -/
def slidePurpose (s : SlideRecord) : Str := s.purpose.getD (str "Content")

/-- A stripped line that causes `_parse_outline` to put a key into
`current_slide` (one of the four labelled-field branches). -/
def isLabelLine (l : Str) : Bool :=
  (str "**Slide:**").isPrefixOf l || (str "**Title:**").isPrefixOf l ||
    (str "**Purpose:**").isPrefixOf l || (str "**Visual:**").isPrefixOf l

/-- Number of `---`-delimited blocks of the given lines that contain at
least one labelled-field line; `pending` records whether the block under
construction already has one. -/
def labeledBlockCount : List Str → Bool → Nat
  | [], pending => if pending then 1 else 0
  | l :: ls, pending =>
    let sl := pyStrip l
    if sl == str "---" then (if pending then 1 else 0) + labeledBlockCount ls false
    else labeledBlockCount ls (pending || isLabelLine sl)

/-- Modelled from the spec: the spec counts the `---`-delimited blocks that
are non-empty (not whitespace-only); `pending` records whether the block
under construction has a line with non-whitespace content. -/
def specNonEmptyBlockCount : List Str → Bool → Nat
  | [], pending => if pending then 1 else 0
  | l :: ls, pending =>
    let sl := pyStrip l
    if sl == str "---" then (if pending then 1 else 0) + specNonEmptyBlockCount ls false
    else specNonEmptyBlockCount ls (pending || !sl.isEmpty)

/-- Modelled from the spec: the number of non-empty (not whitespace-only)
`---`-delimited blocks of an outline document. -/
def specNonEmptyBlocks (doc : Str) : Nat :=
  specNonEmptyBlockCount (splitNl doc) false

end PPTApp

namespace PPTApp

/-! ## Generic lemmas about the string primitives -/

theorem infix_iff_exists_drop {pat s : Str} : pat <:+: s ↔ ∃ i, pat <+: s.drop i := by
  constructor
  · rintro ⟨u, v, rfl⟩
    refine ⟨u.length, ?_⟩
    rw [List.append_assoc, List.drop_left]
    exact List.prefix_append pat v
  · rintro ⟨i, t, ht⟩
    refine ⟨s.take i, t, ?_⟩
    calc s.take i ++ pat ++ t = s.take i ++ (pat ++ t) := by rw [List.append_assoc]
    _ = s.take i ++ s.drop i := by rw [ht]
    _ = s := List.take_append_drop i s

theorem findSub_eq_some_iff {s pat : Str} {i : Nat} :
    findSub s pat = some i ↔ pat <+: s.drop i ∧ ∀ j < i, ¬ pat <+: s.drop j := by
  induction s generalizing i with
  | nil =>
    cases pat with
    | nil =>
      simp only [findSub, List.isEmpty_nil, if_pos rfl, List.drop_nil]
      constructor
      · rintro h
        obtain rfl : i = 0 := by simpa using h.symm
        simp
      · rintro ⟨-, h2⟩
        rcases Nat.eq_zero_or_pos i with rfl | hi
        · rfl
        · exact absurd (h2 0 hi) (by simp)
    | cons p ps =>
      simp only [findSub, List.isEmpty_cons, Bool.false_eq_true, if_false, List.drop_nil]
      constructor
      · rintro ⟨⟩
      · rintro ⟨h1, -⟩
        exact absurd (List.prefix_nil.mp h1) (by simp)
  | cons c rest ih =>
    cases hp : pat.isPrefixOf (c :: rest) with
    | true =>
      simp only [findSub, hp, if_true]
      have hpre : pat <+: c :: rest := List.isPrefixOf_iff_prefix.mp hp
      constructor
      · rintro h
        obtain rfl : i = 0 := by simpa using h.symm
        exact ⟨by simpa using hpre, by omega⟩
      · rintro ⟨-, h2⟩
        rcases Nat.eq_zero_or_pos i with rfl | hi
        · rfl
        · exact absurd (h2 0 hi) (by simpa using hpre)
    | false =>
      have hnpre : ¬ pat <+: c :: rest := fun h =>
        by simpa [hp] using List.isPrefixOf_iff_prefix.mpr h
      simp only [findSub, hp, Bool.false_eq_true, if_false]
      constructor
      · intro h
        obtain ⟨i', hi', rfl⟩ := Option.map_eq_some'.mp h
        obtain ⟨g1, g2⟩ := ih.mp hi'
        refine ⟨by simpa using g1, ?_⟩
        intro j hj
        rcases j with _ | j'
        · simpa using hnpre
        · simpa using g2 j' (by omega)
      · rintro ⟨h1, h2⟩
        rcases i with _ | i'
        · exact absurd (by simpa using h1) hnpre
        · have hfind : findSub rest pat = some i' := by
            refine ih.mpr ⟨by simpa using h1, ?_⟩
            intro j hj
            simpa using h2 (j + 1) (by omega)
          simp [hfind]

theorem findSub_isSome_of_pre {s pat : Str} {i : Nat} (h : pat <+: s.drop i) :
    (findSub s pat).isSome := by
  induction s generalizing i with
  | nil =>
    obtain rfl : pat = [] := List.prefix_nil.mp (by simpa using h)
    simp [findSub]
  | cons c rest ih =>
    cases hp : pat.isPrefixOf (c :: rest) with
    | true => simp [findSub, hp]
    | false =>
      have hnpre : ¬ pat <+: c :: rest := fun hh =>
        by simpa [hp] using List.isPrefixOf_iff_prefix.mpr hh
      rcases i with _ | i'
      · exact absurd (by simpa using h) hnpre
      · have := ih (show pat <+: rest.drop i' by simpa using h)
        simp only [findSub, hp, Bool.false_eq_true, if_false]
        simpa using this

theorem findSub_eq_none_iff {s pat : Str} :
    findSub s pat = none ↔ ∀ i, ¬ pat <+: s.drop i := by
  constructor
  · intro h i hpre
    have := findSub_isSome_of_pre hpre
    simp [h] at this
  · intro h
    cases hf : findSub s pat with
    | none => rfl
    | some k =>
      obtain ⟨g1, -⟩ := findSub_eq_some_iff.mp hf
      exact absurd g1 (h k)

theorem findSub_eq_none_iff_not_sub {s pat : Str} :
    findSub s pat = none ↔ ¬ pat <:+: s := by
  rw [findSub_eq_none_iff, infix_iff_exists_drop]
  push_neg
  rfl

theorem rfindSub_eq_none_iff {s pat : Str} :
    rfindSub s pat = none ↔ ∀ i, ¬ pat <+: s.drop i := by
  induction s with
  | nil =>
    cases pat with
    | nil => simp [rfindSub]
    | cons p ps =>
      simp only [rfindSub, List.isEmpty_cons, Bool.false_eq_true, if_false, List.drop_nil]
      constructor
      · intro _ i hpre
        exact absurd (List.prefix_nil.mp hpre) (by simp)
      · intro _
        trivial
  | cons c rest ih =>
    cases hr : rfindSub rest pat with
    | some k =>
      simp only [rfindSub, hr]
      constructor
      · rintro ⟨⟩
      · intro h
        have : rfindSub rest pat = none := by
          rw [ih]
          intro j hj
          exact h (j + 1) (by simpa using hj)
        simp [hr] at this
    | none =>
      cases hp : pat.isPrefixOf (c :: rest) with
      | true =>
        simp only [rfindSub, hr, hp, if_true]
        constructor
        · rintro ⟨⟩
        · intro h
          exact absurd (by simpa using List.isPrefixOf_iff_prefix.mp hp) (h 0)
      | false =>
        have hnpre : ¬ pat <+: c :: rest := fun hh =>
          by simpa [hp] using List.isPrefixOf_iff_prefix.mpr hh
        simp only [rfindSub, hr, hp, Bool.false_eq_true, if_false]
        constructor
        · intro _ i
          rcases i with _ | i'
          · simpa using hnpre
          · simpa using (ih.mp hr) i'
        · intro _
          trivial

theorem rfindSub_eq_some_iff {s pat : Str} {i : Nat} (hpat : pat ≠ []) :
    rfindSub s pat = some i ↔ pat <+: s.drop i ∧ ∀ j, i < j → ¬ pat <+: s.drop j := by
  induction s generalizing i with
  | nil =>
    have hne : (if pat.isEmpty then some 0 else (none : Option Nat)) = none := by
      rw [if_neg]
      simpa [List.isEmpty_iff] using hpat
    simp only [rfindSub, hne, List.drop_nil]
    constructor
    · rintro ⟨⟩
    · rintro ⟨h1, -⟩
      exact absurd (List.prefix_nil.mp h1) hpat
  | cons c rest ih =>
    cases hr : rfindSub rest pat with
    | some k =>
      obtain ⟨g1, g2⟩ := ih.mp hr
      simp only [rfindSub, hr]
      constructor
      · intro h
        obtain rfl : i = k + 1 := by simpa using h.symm
        refine ⟨by simpa using g1, ?_⟩
        intro j hj
        rcases j with _ | j'
        · omega
        · simpa using g2 j' (by omega)
      · rintro ⟨h1, h2⟩
        rcases Nat.lt_trichotomy i (k + 1) with hlt | heq | hgt
        · exact absurd (by simpa using g1) (h2 (k + 1) hlt)
        · simp [heq]
        · rcases i with _ | i'
          · omega
          · exact absurd (by simpa using h1) (g2 i' (by omega))
    | none =>
      have hrest : ∀ j, ¬ pat <+: rest.drop j := rfindSub_eq_none_iff.mp hr
      cases hp : pat.isPrefixOf (c :: rest) with
      | true =>
        simp only [rfindSub, hr, hp, if_true]
        constructor
        · intro h
          obtain rfl : i = 0 := by simpa using h.symm
          refine ⟨by simpa using List.isPrefixOf_iff_prefix.mp hp, ?_⟩
          intro j hj
          rcases j with _ | j'
          · omega
          · simpa using hrest j'
        · rintro ⟨h1, -⟩
          rcases i with _ | i'
          · rfl
          · exact absurd (by simpa using h1) (hrest i')
      | false =>
        have hnpre : ¬ pat <+: c :: rest := fun hh =>
          by simpa [hp] using List.isPrefixOf_iff_prefix.mpr hh
        simp only [rfindSub, hr, hp, Bool.false_eq_true, if_false]
        constructor
        · rintro ⟨⟩
        · rintro ⟨h1, -⟩
          rcases i with _ | i'
          · exact absurd (by simpa using h1) hnpre
          · exact absurd (by simpa using h1) (hrest i')

theorem rfindSub_eq_none_iff_not_sub {s pat : Str} :
    rfindSub s pat = none ↔ ¬ pat <:+: s := by
  rw [rfindSub_eq_none_iff, infix_iff_exists_drop]
  push_neg
  rfl

theorem findSub_of_pre {s pat : Str} (h : pat <+: s) : findSub s pat = some 0 :=
  findSub_eq_some_iff.mpr ⟨by simpa using h, by omega⟩

theorem preOfPreLe {u v l : Str} (hu : u <+: l) (hv : v <+: l)
    (hle : u.length ≤ v.length) : u <+: v := by
  have h1 : u = l.take u.length := List.prefix_iff_eq_take.mp hu
  have h2 : v = l.take v.length := List.prefix_iff_eq_take.mp hv
  rw [List.prefix_iff_eq_take, h2, List.take_take, Nat.min_eq_left hle, ← h1]

theorem preOfAppendLe {u x y : Str} (h : u <+: x ++ y) (hle : u.length ≤ x.length) : u <+: x :=
  preOfPreLe h (List.prefix_append x y) (by simpa using hle)

theorem preTakeOf {u v : Str} (h : u <+: v) (n : Nat) (hle : u.length ≤ n) : u <+: v.take n := by
  have h1 : u = v.take u.length := List.prefix_iff_eq_take.mp h
  rw [List.prefix_iff_eq_take, List.take_take, Nat.min_eq_left hle, ← h1]

theorem find_append {a b pat : Str} (hpat : pat ≠ [])
    (ha : ¬ pat <:+: (a ++ pat.dropLast)) :
    findSub (a ++ pat ++ b) pat = some a.length := by
  rw [List.append_assoc]
  apply findSub_eq_some_iff.mpr
  constructor
  · rw [List.drop_left]
    exact List.prefix_append pat b
  · intro j hj hpre
    rw [List.drop_append_of_le_length (by omega)] at hpre
    set x := a.drop j with hx
    have hxne : x ≠ [] := by
      intro hnil
      have : x.length = a.length - j := by simp [hx]
      rw [hnil] at this
      simp at this
      omega
    rcases le_or_lt pat.length x.length with hle | hlt
    · have h1 : pat <+: x := preOfAppendLe hpre hle
      have h2 : pat <:+: a := (infix_iff_exists_drop.mpr ⟨j, by rwa [← hx]⟩)
      exact ha (h2.trans ⟨[], pat.dropLast, by simp⟩)
    · have hxp : x <+: pat := preOfPreLe (List.prefix_append x (pat ++ b)) hpre (by omega)
      obtain ⟨t, ht⟩ := hxp
      have htb : t <+: pat ++ b := by
        have : x ++ t <+: x ++ (pat ++ b) := by rw [ht]; exact hpre
        exact (List.prefix_append_right_inj x).mp this
      have htlen : t.length ≤ pat.length - 1 := by
        have := congrArg List.length ht
        simp at this
        have hx1 : 1 ≤ x.length := List.length_pos.mpr hxne
        omega
      have htpat : t <+: pat := preOfAppendLe htb (by omega)
      have htdl : t <+: pat.dropLast := by
        rw [List.dropLast_eq_take]
        exact preTakeOf htpat _ htlen
      have hmain : pat <+: x ++ pat.dropLast := by
        have h0 : x ++ t <+: x ++ pat.dropLast := (List.prefix_append_right_inj x).mpr htdl
        rwa [ht] at h0
      have hinfix : pat <:+: a.drop j ++ pat.dropLast := by
        rw [← hx]
        exact hmain.isInfix
      obtain ⟨u, v, huv⟩ := hinfix
      refine ha ⟨a.take j ++ u, v, ?_⟩
      calc a.take j ++ u ++ pat ++ v = a.take j ++ (u ++ pat ++ v) := by
            simp [List.append_assoc]
      _ = a.take j ++ (a.drop j ++ pat.dropLast) := by rw [huv]
      _ = a ++ pat.dropLast := by rw [← List.append_assoc, List.take_append_drop]

theorem rfind_append {a b pat : Str} (hpat : pat ≠ [])
    (hb : ¬ pat <:+: (pat.drop 1 ++ b)) :
    rfindSub (a ++ pat ++ b) pat = some a.length := by
  rw [List.append_assoc]
  apply (rfindSub_eq_some_iff hpat).mpr
  constructor
  · rw [List.drop_left]
    exact List.prefix_append pat b
  · intro j hj hpre
    have hpl : 1 ≤ pat.length := by
      cases pat with
      | nil => exact absurd rfl hpat
      | cons u us => simp
    rcases le_or_lt j (a.length + pat.length + b.length) with hjle | hjgt
    · obtain ⟨i, rfl⟩ : ∃ i, j = a.length + i := ⟨j - a.length, by omega⟩
      rw [List.drop_append] at hpre
      have hi1 : 1 ≤ i := by omega
      have hsuf : (pat ++ b).drop i <:+ pat.drop 1 ++ b := by
        have h1 : (pat ++ b).drop i <:+ (pat ++ b).drop 1 := List.drop_suffix_drop_left _ hi1
        rwa [List.drop_append_of_le_length hpl] at h1
      exact hb (hpre.isInfix.trans hsuf.isInfix)
    · have : pat.length ≤ ((a ++ (pat ++ b)).drop j).length := hpre.length_le
      simp at this
      omega

theorem rfind_of_suffix {s pat : Str} (hpat : pat ≠ []) (h : pat <:+ s) :
    rfindSub s pat = some (s.length - pat.length) := by
  apply (rfindSub_eq_some_iff hpat).mpr
  obtain ⟨w, hw⟩ := h
  have hwl : w.length + pat.length = s.length := by
    have := congrArg List.length hw
    simpa using this
  have hpl : 1 ≤ pat.length := by
    cases pat with
    | nil => exact absurd rfl hpat
    | cons u us => simp
  have hslen : s.length - pat.length = w.length := by omega
  constructor
  · rw [hslen, ← hw, List.drop_left]
  · intro j hj hpre
    have : pat.length ≤ (s.drop j).length := hpre.length_le
    simp at this
    omega

/-! ## Lemmas about `strip` -/

theorem lstrip_eq_self {c : Char} (t : Str) (hc : isPyWs c = false) :
    lstrip (c :: t) = c :: t := by
  simp [lstrip, List.dropWhile_cons, hc]

theorem lstrip_head {s : Str} {c : Char} {t : Str} (h : lstrip s = c :: t) :
    isPyWs c = false := by
  induction s with
  | nil => simp [lstrip] at h
  | cons d ds ih =>
    by_cases hd : isPyWs d
    · rw [lstrip, List.dropWhile_cons, if_pos hd] at h
      exact ih h
    · rw [lstrip, List.dropWhile_cons, if_neg hd] at h
      obtain ⟨rfl, -⟩ := List.cons.injEq .. ▸ h
      exact Bool.eq_false_iff.mpr (by simpa using hd)

theorem rstrip_eq_self {d : Char} (x : Str) (hd : isPyWs d = false) :
    rstrip (x ++ [d]) = x ++ [d] := by
  simp [rstrip, List.reverse_append, List.dropWhile_cons, hd]

theorem rstrip_pre (s : Str) : rstrip s <+: s := by
  have h : s.reverse.dropWhile isPyWs <:+ s.reverse := List.dropWhile_suffix isPyWs
  have h2 := List.reverse_prefix.mpr h
  rwa [List.reverse_reverse] at h2

theorem pyStrip_head {s : Str} {c : Char} {t : Str} (h : pyStrip s = c :: t) :
    isPyWs c = false := by
  rw [pyStrip] at h
  obtain ⟨u, hu⟩ := rstrip_pre (lstrip s)
  rw [h] at hu
  exact lstrip_head hu.symm

theorem pyStrip_cons_snoc {c d : Char} (m : Str) (hc : isPyWs c = false)
    (hd : isPyWs d = false) : pyStrip (c :: (m ++ [d])) = c :: (m ++ [d]) := by
  rw [pyStrip, lstrip_eq_self _ hc]
  have : c :: (m ++ [d]) = (c :: m) ++ [d] := by simp
  rw [this, rstrip_eq_self _ hd]

theorem lstrip_idem (s : Str) : lstrip (lstrip s) = lstrip s := by
  cases h : lstrip s with
  | nil => simp [lstrip]
  | cons c t => exact lstrip_eq_self _ (lstrip_head h)

theorem rstrip_idem (s : Str) : rstrip (rstrip s) = rstrip s := by
  rw [rstrip, rstrip, List.reverse_reverse]
  congr 1
  induction s.reverse with
  | nil => simp
  | cons c t ih =>
    by_cases hc : isPyWs c
    · rw [List.dropWhile_cons, if_pos hc]
      exact ih
    · rw [List.dropWhile_cons, if_neg hc, List.dropWhile_cons, if_neg hc]

theorem lstrip_rstrip_lstrip (s : Str) : lstrip (rstrip (lstrip s)) = rstrip (lstrip s) := by
  cases h : rstrip (lstrip s) with
  | nil => simp [lstrip]
  | cons c t =>
    obtain ⟨u, hu⟩ := rstrip_pre (lstrip s)
    rw [h] at hu
    exact lstrip_eq_self _ (lstrip_head hu.symm)

theorem pyStrip_idem (s : Str) : pyStrip (pyStrip s) = pyStrip s := by
  rw [pyStrip, pyStrip, lstrip_rstrip_lstrip, rstrip_idem]

theorem pyStrip_infix_self (s : Str) : pyStrip s <:+: s :=
  (rstrip_pre (lstrip s)).isInfix.trans (List.dropWhile_suffix isPyWs).isInfix

/-! ## The fence substitutions are the identity on fence-free text -/

theorem not_infix_tail {pat : Str} {c : Char} {rest : Str} (h : ¬ pat <:+: (c :: rest)) :
    ¬ pat <:+: rest :=
  fun hh => h (List.infix_cons hh)

theorem fence_pre_of_isPrefixOf {s : Str} {pat : Str} (hf : fence <+: pat)
    (h : pat.isPrefixOf s = true) : fence <:+: s :=
  (hf.trans (List.isPrefixOf_iff_prefix.mp h)).isInfix

theorem subFence1_id : ∀ (fuel : Nat) (s : Str), ¬ fence <:+: s → subFence1 fuel s = s
  | 0, s, _ => rfl
  | _ + 1, [], _ => rfl
  | fuel + 1, c :: rest, h => by
    have hc : (str "```html").isPrefixOf (c :: rest) = false := by
      cases hp : (str "```html").isPrefixOf (c :: rest) with
      | true => exact absurd (fence_pre_of_isPrefixOf (by decide) hp) h
      | false => rfl
    rw [subFence1, hc]
    simp only [Bool.false_eq_true, if_false, List.cons.injEq, true_and]
    exact subFence1_id fuel rest (not_infix_tail h)

theorem subFence2_id : ∀ (fuel : Nat) (s : Str), ¬ fence <:+: s → subFence2 fuel s = s
  | 0, s, _ => rfl
  | _ + 1, [], _ => rfl
  | fuel + 1, c :: rest, h => by
    have hc : (str "```").isPrefixOf (c :: rest) = false := by
      cases hp : (str "```").isPrefixOf (c :: rest) with
      | true => exact absurd (fence_pre_of_isPrefixOf (by decide) hp) h
      | false => rfl
    rw [subFence2, hc]
    simp only [Bool.false_eq_true, if_false, List.cons.injEq, true_and]
    exact subFence2_id fuel rest (not_infix_tail h)

theorem subFence3_id : ∀ (fuel : Nat) (b : Bool) (s : Str), ¬ fence <:+: s →
    subFence3 fuel b s = s
  | 0, _, s, _ => rfl
  | _ + 1, _, [], _ => rfl
  | fuel + 1, b, c :: rest, h => by
    have hc : (str "```").isPrefixOf (c :: rest) = false := by
      cases hp : (str "```").isPrefixOf (c :: rest) with
      | true => exact absurd (fence_pre_of_isPrefixOf (by decide) hp) h
      | false => rfl
    rw [subFence3, hc]
    simp only [Bool.and_false, Bool.false_eq_true, if_false, List.cons.injEq, true_and]
    exact subFence3_id fuel (c == '\n') rest (not_infix_tail h)

theorem mdCleanup_id {s : Str} (h : ¬ fence <:+: s) : mdCleanup s = s := by
  rw [mdCleanup]
  simp only [subFence1_id _ _ h, subFence2_id _ _ h, subFence3_id _ _ _ h]

/-! ## Lemmas about the slide-marker search -/

theorem findSlideMarker_eq_none_iff {raw : Str} :
    findSlideMarker raw = none ↔ ∀ i, matchSlideAt (raw.drop i) = false := by
  induction raw with
  | nil =>
    constructor
    · intro _ i
      simp only [List.drop_nil]
      decide
    · intro _
      rfl
  | cons c rest ih =>
    cases hm : matchSlideAt (c :: rest) with
    | true =>
      simp only [findSlideMarker, hm, if_true]
      constructor
      · rintro ⟨⟩
      · intro h
        have := h 0
        simp [hm] at this
    | false =>
      simp only [findSlideMarker, hm, Bool.false_eq_true, if_false, Option.map_eq_none']
      rw [ih]
      constructor
      · intro h i
        rcases i with _ | i'
        · simpa using hm
        · simpa using h i'
      · intro h i
        simpa using h (i + 1)

theorem findSlideMarker_isSome_of {raw : Str} {n : Nat}
    (h : matchSlideAt (raw.drop n) = true) : (findSlideMarker raw).isSome := by
  cases hf : findSlideMarker raw with
  | some p => rfl
  | none =>
    have := findSlideMarker_eq_none_iff.mp hf n
    simp [h] at this

theorem eatLit_append (pat x : Str) : eatLit pat (pat ++ x) = some x := by
  rw [eatLit, if_pos (List.isPrefixOf_iff_prefix.mpr (List.prefix_append pat x)), List.drop_left]

theorem dropWhile_ws_append {w : Str} (hw : ∀ c ∈ w, isPyWs c = true) {d : Char}
    (hd : isPyWs d = false) (t : Str) :
    List.dropWhile isPyWs (w ++ d :: t) = d :: t := by
  induction w with
  | nil => simp [List.dropWhile_cons, hd]
  | cons a as ih =>
    rw [List.cons_append, List.dropWhile_cons, if_pos (hw a (by simp))]
    exact ih (fun c hc => hw c (by simp [hc]))

theorem matchSlideAt_shape (w1 w2 w3 rest : Str)
    (h1 : ∀ c ∈ w1, isPyWs c = true) (h2 : ∀ c ∈ w2, isPyWs c = true)
    (h3 : ∀ c ∈ w3, isPyWs c = true) :
    matchSlideAt (str "**" ++ (w1 ++ (str "Slide" ++ (w2 ++ (str ":" ++ (w3 ++ (str "**" ++ rest))))))) = true := by
  have e1 : str "Slide" ++ (w2 ++ (str ":" ++ (w3 ++ (str "**" ++ rest)))) =
      'S' :: (str "lide" ++ (w2 ++ (str ":" ++ (w3 ++ (str "**" ++ rest))))) := rfl
  have e2 : str ":" ++ (w3 ++ (str "**" ++ rest)) =
      ':' :: (w3 ++ (str "**" ++ rest)) := rfl
  have e3 : str "**" ++ rest = '*' :: (str "*" ++ rest) := rfl
  simp only [matchSlideAt, eatLit_append]
  rw [e1, dropWhile_ws_append h1 (by decide), ← e1]
  simp only [eatLit_append]
  rw [e2, dropWhile_ws_append h2 (by decide), ← e2]
  simp only [eatLit_append]
  rw [e3, dropWhile_ws_append h3 (by decide), ← e3]
  exact List.isPrefixOf_iff_prefix.mpr (List.prefix_append _ _)

/-! ## Claims about `extract_clean_outline` (C3, C4, C5) -/

theorem extract_isSome_of_find {raw : Str} {p : Nat}
    (h : findSlideMarker raw = some p) : (extract_clean_outline raw).isSome := by
  rw [extract_clean_outline, h]
  rcases hr : rfindSub (raw.take p) (str "---") with _ | d <;> simp [hr]

/-- C3: `extract_clean_outline` returns the fatal `None` exactly when the
slide-marker pattern `\*\*\s*Slide\s*:\s*\*\*` matches nowhere in the raw
completion; whenever a marker occurs, the function returns a successful
(`some`) outline, never a partial failure. -/
theorem claim_C3 (raw : Str) :
    extract_clean_outline raw = none ↔ ∀ i, matchSlideAt (raw.drop i) = false := by
  rw [← findSlideMarker_eq_none_iff]
  cases hf : findSlideMarker raw with
  | none => simp [extract_clean_outline, hf]
  | some p =>
    have := extract_isSome_of_find hf
    constructor
    · intro h
      rw [h] at this
      simp at this
    · rintro ⟨⟩

/-- C4 counterexample: the source's `re.search(r"\*\*\s*Slide\s*:\s*\*\*",
raw_output)` has no `re.IGNORECASE` flag, so a marker written `**slide:**`
or `**SLIDE:**` is not found and recovery fails with `None`, contradicting
the claim that non-canonical casing still anchors recovery. -/
theorem claim_C4_cex :
    extract_clean_outline (str "**slide:** x") = none ∧
    extract_clean_outline (str "**SLIDE:** x") = none := by
  constructor <;> decide

/-- C4 (amended): the anchor pattern is whitespace-tolerant but
case-SENSITIVE: two literal asterisks, optional whitespace, the word
`Slide` in exactly this casing, optional whitespace, a colon, optional
whitespace, two literal asterisks; any input containing such a marker
(with arbitrary whitespace runs at the three optional slots) is recovered
successfully. -/
theorem claim_C4 (pre w1 w2 w3 rest : Str)
    (h1 : ∀ c ∈ w1, isPyWs c = true) (h2 : ∀ c ∈ w2, isPyWs c = true)
    (h3 : ∀ c ∈ w3, isPyWs c = true) :
    (extract_clean_outline
      (pre ++ (str "**" ++ (w1 ++ (str "Slide" ++ (w2 ++ (str ":" ++ (w3 ++ (str "**" ++ rest))))))))).isSome := by
  have hm : matchSlideAt
      (str "**" ++ (w1 ++ (str "Slide" ++ (w2 ++ (str ":" ++ (w3 ++ (str "**" ++ rest))))))) = true :=
    matchSlideAt_shape w1 w2 w3 rest h1 h2 h3
  cases hf : findSlideMarker
      (pre ++ (str "**" ++ (w1 ++ (str "Slide" ++ (w2 ++ (str ":" ++ (w3 ++ (str "**" ++ rest)))))))) with
  | none =>
    have hcontra := findSlideMarker_eq_none_iff.mp hf pre.length
    rw [List.drop_left] at hcontra
    simp [hm] at hcontra
  | some p => exact extract_isSome_of_find hf

/-- C4 witness: a marker with non-canonical spacing, `** Slide :  **`,
inside surrounding prose is recovered. -/
theorem claim_C4_witness :
    (extract_clean_outline (str "some prose ** Slide :  ** 1 rest")).isSome := by
  have h := claim_C4 (str "some prose ") (str " ") (str " ") (str "  ") (str " 1 rest")
    (by decide) (by decide) (by decide)
  have e : str "some prose " ++ (str "**" ++ ((str " ") ++ (str "Slide" ++ ((str " ") ++ (str ":" ++ (str "  " ++ (str "**" ++ str " 1 rest"))))))) = str "some prose ** Slide :  ** 1 rest" := by decide
  rwa [e] at h

/-- C5 counterexample: the backward scan is `raw_output.rfind("---", 0,
first_slide_pos)` — a plain substring search, not a line test — so the
`---` embedded in the longer line `a---b` does become the document start,
contradicting the claim that only a line consisting exactly of `---`
counts. -/
theorem claim_C5_cex :
    extract_clean_outline (str "a---b\n**Slide:** 1") = some (str "---b\n**Slide:** 1") ∧
    str "---b\n**Slide:** 1" ≠ str "**Slide:** 1" := by
  constructor <;> decide

/-- C5 (amended): after the anchor is found, the backward scan looks for
the last occurrence of the SUBSTRING `---` before the anchor (regardless
of what else is on its line); when one exists the returned document begins
at that occurrence (then trimmed), and embedded occurrences such as in
`a---b` do qualify. -/
theorem claim_C5 (a m r : Str)
    (h1 : findSlideMarker (a ++ (str "---" ++ (m ++ (str "**Slide:**" ++ r)))) =
      some (a.length + (3 + m.length)))
    (h2 : ¬ (str "---") <:+: (str "--" ++ m)) :
    extract_clean_outline (a ++ (str "---" ++ (m ++ (str "**Slide:**" ++ r)))) =
      some (pyStrip (str "---" ++ (m ++ (str "**Slide:**" ++ r)))) := by
  have htake : (a ++ (str "---" ++ (m ++ (str "**Slide:**" ++ r)))).take (a.length + (3 + m.length)) =
      a ++ str "---" ++ m := by
    have e : a ++ (str "---" ++ (m ++ (str "**Slide:**" ++ r))) =
        (a ++ str "---" ++ m) ++ (str "**Slide:**" ++ r) := by
      simp [List.append_assoc]
    rw [e]
    refine List.take_left' ?_
    simp [str]
    omega
  have hrf : rfindSub (a ++ str "---" ++ m) (str "---") = some a.length := by
    apply rfind_append (by decide)
    have e2 : (str "---").drop 1 = str "--" := by decide
    rwa [e2]
  simp only [extract_clean_outline, h1, htake, hrf, List.drop_left]

/-- C5 witness: in `xx---q**Slide:**` the last `---` before the anchor is
embedded mid-line and still becomes the start of the recovered outline. -/
theorem claim_C5_witness :
    extract_clean_outline (str "xx---q**Slide:**") = some (str "---q**Slide:**") := by
  have h := claim_C5 (str "xx") (str "q") [] (by decide) (by decide)
  have e : str "xx" ++ (str "---" ++ (str "q" ++ (str "**Slide:**" ++ []))) =
      str "xx---q**Slide:**" := by decide
  have e2 : pyStrip (str "---" ++ (str "q" ++ (str "**Slide:**" ++ []))) =
      str "---q**Slide:**" := by decide
  rw [e, e2] at h
  exact h

/-! ## Lemmas about `_parse_outline`'s line loop -/

theorem ne_of_pre_not_pre {p sl q : Str} (hp : p.isPrefixOf sl = true) (h : ¬ p <+: q) :
    sl ≠ q := by
  rintro rfl
  exact h (List.isPrefixOf_iff_prefix.mp hp)

theorem not_pre_of_pre_excl {p q sl : Str} (hp : p.isPrefixOf sl = true)
    (hlen : q.length ≤ p.length) (hnq : ¬ q <+: p) : q.isPrefixOf sl = false := by
  cases hq : q.isPrefixOf sl with
  | false => rfl
  | true =>
    exact absurd (preOfPreLe (List.isPrefixOf_iff_prefix.mp hq)
      (List.isPrefixOf_iff_prefix.mp hp) hlen) hnq

theorem strip_no_indent {rawLine t : Str}
    (hp : (' ' :: t).isPrefixOf (pyStrip rawLine) = true) : False := by
  obtain ⟨u, hu⟩ := List.isPrefixOf_iff_prefix.mp hp
  have hws : isPyWs ' ' = false := pyStrip_head hu.symm
  simp [isPyWs] at hws

theorem stepLine_elim {C : ParseState × List SlideRecord → Prop} (st : ParseState)
    (acc : List SlideRecord) (l : Str)
    (h0 : pyStrip l = [] → C (st, acc))
    (h1 : pyStrip l = str "---" → curNonEmpty st = true → C (initState, acc ++ [mkRec st]))
    (h2 : pyStrip l = str "---" → curNonEmpty st = false → C (st, acc))
    (h3 : (str "**Slide:**").isPrefixOf (pyStrip l) = true →
      C ({ st with slide_num := some (pyStrip (pySplitIdx1 (str "**Slide:**") (pyStrip l))) }, acc))
    (h4 : (str "**Title:**").isPrefixOf (pyStrip l) = true →
      C ({ st with title := some (pyStrip (pySplitIdx1 (str "**Title:**") (pyStrip l))) }, acc))
    (h5 : (str "**Purpose:**").isPrefixOf (pyStrip l) = true →
      C ({ st with purpose := some (pyStrip (pySplitIdx1 (str "**Purpose:**") (pyStrip l))) }, acc))
    (h6 : (str "**Content:**").isPrefixOf (pyStrip l) = true →
      isLabelLine (pyStrip l) = false →
      C ({ st with in_content := true, in_visual := false }, acc))
    (h7 : (str "**Visual:**").isPrefixOf (pyStrip l) = true →
      C ({ st with in_visual := true, in_content := false, visual := some ⟨[], []⟩ }, acc))
    (h8 : isLabelLine (pyStrip l) = false → pyStrip l ≠ str "---" → pyStrip l ≠ [] →
      ∀ cl, C ({ st with content := st.content ++ [cl] }, acc))
    (h9 : isLabelLine (pyStrip l) = false → pyStrip l ≠ str "---" → pyStrip l ≠ [] →
      C (st, acc)) :
    C (stepLine (st, acc) l) := by
  simp only [stepLine]
  by_cases e0 : (pyStrip l).isEmpty = true
  · rw [if_pos e0]
    exact h0 (List.isEmpty_iff.mp e0)
  · rw [if_neg e0]
    have hne : pyStrip l ≠ [] := fun h => e0 (List.isEmpty_iff.mpr h)
    by_cases e1 : (pyStrip l == str "---") = true
    · rw [if_pos e1]
      have heq : pyStrip l = str "---" := by simpa using e1
      by_cases e1b : curNonEmpty st = true
      · rw [if_pos e1b]
        exact h1 heq e1b
      · rw [if_neg e1b]
        exact h2 heq (by simpa using e1b)
    · rw [if_neg e1]
      have hnd : pyStrip l ≠ str "---" := fun h => e1 (by simpa using h)
      by_cases e2 : (str "**Slide:**").isPrefixOf (pyStrip l) = true
      · rw [if_pos e2]
        exact h3 e2
      · rw [if_neg e2]
        by_cases e3 : (str "**Title:**").isPrefixOf (pyStrip l) = true
        · rw [if_pos e3]
          exact h4 e3
        · rw [if_neg e3]
          by_cases e4 : (str "**Purpose:**").isPrefixOf (pyStrip l) = true
          · rw [if_pos e4]
            exact h5 e4
          · rw [if_neg e4]
            by_cases e5 : (str "**Content:**").isPrefixOf (pyStrip l) = true
            · rw [if_pos e5]
              refine h6 e5 ?_
              have hv : (str "**Visual:**").isPrefixOf (pyStrip l) = false :=
                not_pre_of_pre_excl e5 (by decide) (by decide)
              simp only [isLabelLine, Bool.eq_false_iff.mpr e2, Bool.eq_false_iff.mpr e3,
                Bool.eq_false_iff.mpr e4, hv]
              simp [Bool.eq_false_iff.mpr e2, Bool.eq_false_iff.mpr e3, Bool.eq_false_iff.mpr e4]
            · rw [if_neg e5]
              by_cases e6 : (str "**Visual:**").isPrefixOf (pyStrip l) = true
              · rw [if_pos e6]
                exact h7 e6
              · rw [if_neg e6]
                have hlab : isLabelLine (pyStrip l) = false := by
                  simp only [isLabelLine]
                  simp [Bool.eq_false_iff.mpr e2, Bool.eq_false_iff.mpr e3,
                    Bool.eq_false_iff.mpr e4, Bool.eq_false_iff.mpr e6]
                by_cases e7 : ((str "  - **Type:**").isPrefixOf (pyStrip l) && st.in_visual) = true
                · exact absurd (strip_no_indent (Bool.and_eq_true .. |>.mp e7).1) (fun h => h)
                · rw [if_neg e7]
                  by_cases e8 : ((str "  - **Data:**").isPrefixOf (pyStrip l) && st.in_visual) = true
                  · exact absurd (strip_no_indent (Bool.and_eq_true .. |>.mp e8).1) (fun h => h)
                  · rw [if_neg e8]
                    by_cases e9 : ((str "- ").isPrefixOf (pyStrip l) && st.in_content) = true
                    · rw [if_pos e9]
                      exact h8 hlab hnd hne _
                    · rw [if_neg e9]
                      exact h9 hlab hnd hne

theorem stepLine_c6 (st : ParseState) (acc : List SlideRecord) (l : Str) :
    ((stepLine (st, acc) l).2).length =
        acc.length + (if pyStrip l = str "---" then (if curNonEmpty st = true then 1 else 0) else 0)
    ∧ curNonEmpty (stepLine (st, acc) l).1 =
        (if pyStrip l = str "---" then false else (curNonEmpty st || isLabelLine (pyStrip l))) := by
  refine @stepLine_elim (fun p =>
      (p.2.length =
        acc.length + (if pyStrip l = str "---" then (if curNonEmpty st = true then 1 else 0) else 0))
      ∧ curNonEmpty p.1 =
        (if pyStrip l = str "---" then false else (curNonEmpty st || isLabelLine (pyStrip l))))
    st acc l ?_ ?_ ?_ ?_ ?_ ?_ ?_ ?_ ?_ ?_
  · intro h
    have hnd : pyStrip l ≠ str "---" := by
      rw [h]
      decide
    have hlab : isLabelLine (pyStrip l) = false := by
      rw [h]
      decide
    exact ⟨by simp [hnd], by rw [if_neg hnd, hlab, Bool.or_false]⟩
  · intro h hcur
    refine ⟨?_, ?_⟩
    · rw [if_pos h, if_pos hcur]
      simp
    · rw [if_pos h]
      rfl
  · intro h hcur
    refine ⟨?_, ?_⟩
    · rw [if_pos h, if_neg (by simp [hcur])]
      simp
    · rw [if_pos h]
      exact hcur
  · intro hp
    have hnd : pyStrip l ≠ str "---" := ne_of_pre_not_pre hp (by decide)
    have hlab : isLabelLine (pyStrip l) = true := by simp [isLabelLine, hp]
    refine ⟨by simp [hnd], ?_⟩
    rw [if_neg hnd, hlab, Bool.or_true]
    all_goals simp [curNonEmpty]
  · intro hp
    have hnd : pyStrip l ≠ str "---" := ne_of_pre_not_pre hp (by decide)
    have hlab : isLabelLine (pyStrip l) = true := by simp [isLabelLine, hp]
    refine ⟨by simp [hnd], ?_⟩
    rw [if_neg hnd, hlab, Bool.or_true]
    all_goals simp [curNonEmpty]
  · intro hp
    have hnd : pyStrip l ≠ str "---" := ne_of_pre_not_pre hp (by decide)
    have hlab : isLabelLine (pyStrip l) = true := by simp [isLabelLine, hp]
    refine ⟨by simp [hnd], ?_⟩
    rw [if_neg hnd, hlab, Bool.or_true]
    all_goals simp [curNonEmpty]
  · intro hp hlab
    have hnd : pyStrip l ≠ str "---" := ne_of_pre_not_pre hp (by decide)
    refine ⟨by simp [hnd], ?_⟩
    rw [if_neg hnd, hlab, Bool.or_false]
    all_goals simp [curNonEmpty]
  · intro hp
    have hnd : pyStrip l ≠ str "---" := ne_of_pre_not_pre hp (by decide)
    have hlab : isLabelLine (pyStrip l) = true := by simp [isLabelLine, hp]
    refine ⟨by simp [hnd], ?_⟩
    rw [if_neg hnd, hlab, Bool.or_true]
    all_goals simp [curNonEmpty]
  · intro hlab hnd hne cl
    refine ⟨by simp [hnd], ?_⟩
    rw [if_neg hnd, hlab, Bool.or_false]
    all_goals simp [curNonEmpty]
  · intro hlab hnd hne
    refine ⟨by simp [hnd], ?_⟩
    rw [if_neg hnd, hlab, Bool.or_false]

theorem labeledBlockCount_cons (l : Str) (ls : List Str) (pending : Bool) :
    labeledBlockCount (l :: ls) pending =
      if pyStrip l = str "---" then
        (if pending = true then 1 else 0) + labeledBlockCount ls false
      else labeledBlockCount ls (pending || isLabelLine (pyStrip l)) := by
  rw [labeledBlockCount]
  by_cases hd : pyStrip l = str "---"
  · rw [if_pos (by simpa using hd), if_pos hd]
  · rw [if_neg (by simpa using hd), if_neg hd]

theorem parse_count_aux (ls : List Str) :
    ∀ (st : ParseState) (acc : List SlideRecord),
    ((ls.foldl stepLine (st, acc)).2 ++
      (if curNonEmpty (ls.foldl stepLine (st, acc)).1 then [mkRec (ls.foldl stepLine (st, acc)).1] else [])).length
    = acc.length + labeledBlockCount ls (curNonEmpty st) := by
  induction ls with
  | nil =>
    intro st acc
    simp only [List.foldl_nil, labeledBlockCount]
    by_cases h : curNonEmpty st = true
    · simp [h]
    · simp [Bool.eq_false_iff.mpr h]
  | cons l ls ih =>
    intro st acc
    rw [List.foldl_cons]
    obtain ⟨hlen, hcur⟩ := stepLine_c6 st acc l
    have hstep := ih (stepLine (st, acc) l).1 (stepLine (st, acc) l).2
    rw [Prod.mk.eta] at hstep
    rw [hstep, hlen, hcur, labeledBlockCount_cons]
    by_cases hd : pyStrip l = str "---"
    · rw [if_pos hd, if_pos hd, if_pos hd]
      omega
    · rw [if_neg hd, if_neg hd, if_neg hd]
      omega

/-- C6 counterexample: the input `- a\n---\n**Title:** T` has two
`---`-delimited non-whitespace blocks, but the first block contains only an
unlabeled bullet line, so `current_slide` stays empty and no record is
flushed for it: the parse yields 1 record, not 2. -/
theorem claim_C6_cex :
    (parse_outline (str "- a\n---\n**Title:** T")).length = 1 ∧
    specNonEmptyBlocks (str "- a\n---\n**Title:** T") = 2 ∧
    (parse_outline (str "- a\n---\n**Title:** T")).length ≠
      specNonEmptyBlocks (str "- a\n---\n**Title:** T") := by
  refine ⟨by decide, by decide, by decide⟩

/-- C6 (amended): `_parse_outline` never raises and returns exactly one
SlideRecord per `---`-delimited block that contains at least one
labelled-field line (`**Slide:**`, `**Title:**`, `**Purpose:**` or
`**Visual:**` at the start of the stripped line); blocks without such a
line — even blocks with non-empty unlabeled content — produce no record. -/
theorem claim_C6 (doc : Str) :
    (parse_outline doc).length = labeledBlockCount (splitNl doc) false := by
  have h := parse_count_aux (splitNl doc) initState []
  have e : curNonEmpty initState = false := rfl
  rw [e] at h
  simpa [parse_outline] using h

/-! ## Field-absence invariants of the parser (C8, C10) -/

theorem splitNl_head_prefix : ∀ (s l0 : Str) (ls : List Str), splitNl s = l0 :: ls → l0 <+: s := by
  intro s
  induction s with
  | nil =>
    intro l0 ls h
    simp only [splitNl, List.cons.injEq] at h
    obtain ⟨h1, -⟩ := h
    subst h1
    exact List.nil_prefix
  | cons c rest ih =>
    intro l0 ls h
    rw [splitNl] at h
    cases hsp : splitNl rest with
    | nil =>
      simp only [hsp, List.cons.injEq] at h
      obtain ⟨h1, -⟩ := h
      subst h1
      exact List.nil_prefix
    | cons m ms =>
      simp only [hsp] at h
      by_cases hc : (c == '\n') = true
      · rw [if_pos hc] at h
        simp only [List.cons.injEq] at h
        obtain ⟨h1, -⟩ := h
        subst h1
        exact List.nil_prefix
      · rw [if_neg hc] at h
        simp only [List.cons.injEq] at h
        obtain ⟨h1, -⟩ := h
        subst h1
        exact List.cons_prefix_cons.mpr ⟨rfl, ih m ms hsp⟩

theorem mem_splitNl_infix_self : ∀ {s l : Str}, l ∈ splitNl s → l <:+: s := by
  intro s
  induction s with
  | nil =>
    intro l hl
    simp only [splitNl, List.mem_singleton] at hl
    subst hl
    exact List.nil_infix
  | cons c rest ih =>
    intro l hl
    rw [splitNl] at hl
    cases hsp : splitNl rest with
    | nil =>
      simp only [hsp, List.mem_singleton] at hl
      subst hl
      exact List.nil_infix
    | cons m ms =>
      simp only [hsp] at hl
      by_cases hc : (c == '\n') = true
      · rw [if_pos hc] at hl
        rcases List.mem_cons.mp hl with rfl | hl2
        · exact List.nil_infix
        · exact List.infix_cons (ih (hsp ▸ hl2))
      · rw [if_neg hc] at hl
        rcases List.mem_cons.mp hl with rfl | hl2
        · have hm : m <+: rest := splitNl_head_prefix rest m ms hsp
          exact (List.cons_prefix_cons.mpr ⟨rfl, hm⟩).isInfix
        · exact List.infix_cons (ih (hsp ▸ List.mem_cons_of_mem m hl2))

theorem no_label_of_not_sub {doc lab : Str} (h : ¬ lab <:+: doc) :
    ∀ l ∈ splitNl doc, lab.isPrefixOf (pyStrip l) = false := by
  intro l hl
  cases hp : lab.isPrefixOf (pyStrip l) with
  | false => rfl
  | true =>
    have h1 : lab <+: pyStrip l := List.isPrefixOf_iff_prefix.mp hp
    have h2 : pyStrip l <:+: l := pyStrip_infix_self l
    have h3 : l <:+: doc := mem_splitNl_infix_self hl
    exact absurd ((h1.isInfix.trans h2).trans h3) h

theorem stepLine_c8 (st : ParseState) (acc : List SlideRecord) (l : Str)
    (hT : (str "**Title:**").isPrefixOf (pyStrip l) = false)
    (hP : (str "**Purpose:**").isPrefixOf (pyStrip l) = false)
    (h1 : st.title = none) (h2 : st.purpose = none)
    (hacc : ∀ r ∈ acc, r.title = none ∧ r.purpose = none) :
    (stepLine (st, acc) l).1.title = none ∧ (stepLine (st, acc) l).1.purpose = none ∧
      ∀ r ∈ (stepLine (st, acc) l).2, r.title = none ∧ r.purpose = none := by
  refine @stepLine_elim (fun p => p.1.title = none ∧ p.1.purpose = none ∧
      ∀ r ∈ p.2, r.title = none ∧ r.purpose = none) st acc l ?_ ?_ ?_ ?_ ?_ ?_ ?_ ?_ ?_ ?_
  · intro _
    exact ⟨h1, h2, hacc⟩
  · intro _ _
    refine ⟨rfl, rfl, ?_⟩
    intro r hr
    rcases List.mem_append.mp hr with hr2 | hr2
    · exact hacc r hr2
    · rw [List.mem_singleton.mp hr2]
      exact ⟨h1, h2⟩
  · intro _ _
    exact ⟨h1, h2, hacc⟩
  · intro _
    exact ⟨h1, h2, hacc⟩
  · intro hp
    simp [hT] at hp
  · intro hp
    simp [hP] at hp
  · intro _ _
    exact ⟨h1, h2, hacc⟩
  · intro _
    exact ⟨h1, h2, hacc⟩
  · intro _ _ _ cl
    exact ⟨h1, h2, hacc⟩
  · intro _ _ _
    exact ⟨h1, h2, hacc⟩

theorem parse_c8_aux (ls : List Str) :
    ∀ (st : ParseState) (acc : List SlideRecord),
    (∀ l ∈ ls, (str "**Title:**").isPrefixOf (pyStrip l) = false) →
    (∀ l ∈ ls, (str "**Purpose:**").isPrefixOf (pyStrip l) = false) →
    st.title = none → st.purpose = none →
    (∀ r ∈ acc, r.title = none ∧ r.purpose = none) →
    ((ls.foldl stepLine (st, acc)).1.title = none ∧
     (ls.foldl stepLine (st, acc)).1.purpose = none ∧
     ∀ r ∈ (ls.foldl stepLine (st, acc)).2, r.title = none ∧ r.purpose = none) := by
  induction ls with
  | nil =>
    intro st acc _ _ h1 h2 hacc
    exact ⟨h1, h2, hacc⟩
  | cons l ls ih =>
    intro st acc hT hP h1 h2 hacc
    rw [List.foldl_cons]
    obtain ⟨g1, g2, g3⟩ := stepLine_c8 st acc l (hT l (by simp)) (hP l (by simp)) h1 h2 hacc
    have hres := ih (stepLine (st, acc) l).1 (stepLine (st, acc) l).2
      (fun x hx => hT x (by simp [hx])) (fun x hx => hP x (by simp [hx])) g1 g2 g3
    rwa [Prod.mk.eta] at hres

/-- C8 counterexample: a block with no `Title` label yields a record whose
title KEY is absent, and the consumer (`_create_fudan_style_slide`)
defaults it to the empty string, not to `"Untitled"`; likewise an absent
`Purpose` defaults to `"Content"`, not `"Text_Only"`. -/
theorem claim_C8_cex :
    parse_outline (str "**Purpose:** X") = [⟨none, none, some (str "X"), none, []⟩] ∧
    slideTitleText ⟨none, none, some (str "X"), none, []⟩ ≠ str "Untitled" ∧
    parse_outline (str "**Title:** T") = [⟨none, some (str "T"), none, none, []⟩] ∧
    slidePurpose ⟨none, some (str "T"), none, none, []⟩ ≠ str "Text_Only" := by
  refine ⟨by decide, by decide, by decide, by decide⟩

/-- C8 (amended): when a document contains no `**Title:**` label anywhere,
every parsed record's title key is absent and the consumer renders the
default title `""` (the empty string); when it contains no `**Purpose:**`
label, every record's purpose key is absent and the consumer uses the
default purpose `"Content"` (unknown purpose values are passed through
unmodified — the parser stores the raw text and the consumer only compares
it against `"Title"` for layout selection). -/
theorem claim_C8 (doc : Str)
    (hT : ¬ (str "**Title:**") <:+: doc) (hP : ¬ (str "**Purpose:**") <:+: doc) :
    ∀ r ∈ parse_outline doc, r.title = none ∧ r.purpose = none ∧
      slideTitleText r = [] ∧ slidePurpose r = str "Content" := by
  have hfold := parse_c8_aux (splitNl doc) initState []
    (no_label_of_not_sub hT) (no_label_of_not_sub hP) rfl rfl (by simp)
  obtain ⟨g1, g2, g3⟩ := hfold
  intro r hr
  rw [parse_outline] at hr
  simp only [List.mem_append] at hr
  have hrt : r.title = none ∧ r.purpose = none := by
    rcases hr with hr2 | hr2
    · exact g3 r hr2
    · by_cases hcur : curNonEmpty ((splitNl doc).foldl stepLine (initState, [])).1 = true
      · rw [if_pos hcur] at hr2
        rw [List.mem_singleton.mp hr2]
        exact ⟨g1, g2⟩
      · rw [if_neg hcur] at hr2
        simp at hr2
  refine ⟨hrt.1, hrt.2, ?_, ?_⟩
  · rw [slideTitleText, hrt.1]
    rfl
  · rw [slidePurpose, hrt.2]
    rfl

/-- C8 witness: for the document `**Slide:** 1` (no Title, no Purpose
label) the single parsed record carries no title/purpose key and the
consumer defaults are `""` and `"Content"`. -/
theorem claim_C8_witness :
    (⟨some (str "1"), none, none, none, []⟩ : SlideRecord).title = none ∧
    (⟨some (str "1"), none, none, none, []⟩ : SlideRecord).purpose = none ∧
    slideTitleText ⟨some (str "1"), none, none, none, []⟩ = [] ∧
    slidePurpose ⟨some (str "1"), none, none, none, []⟩ = str "Content" :=
  claim_C8 (str "**Slide:** 1") (by decide) (by decide)
    ⟨some (str "1"), none, none, none, []⟩ (by decide)

theorem stepLine_c10 (st : ParseState) (acc : List SlideRecord) (l : Str)
    (h1 : st.visual = none ∨ st.visual = some ⟨[], []⟩)
    (hacc : ∀ r ∈ acc, r.visual = none ∨ r.visual = some ⟨[], []⟩) :
    ((stepLine (st, acc) l).1.visual = none ∨ (stepLine (st, acc) l).1.visual = some ⟨[], []⟩) ∧
      ∀ r ∈ (stepLine (st, acc) l).2, r.visual = none ∨ r.visual = some ⟨[], []⟩ := by
  refine @stepLine_elim (fun p => (p.1.visual = none ∨ p.1.visual = some ⟨[], []⟩) ∧
      ∀ r ∈ p.2, r.visual = none ∨ r.visual = some ⟨[], []⟩) st acc l ?_ ?_ ?_ ?_ ?_ ?_ ?_ ?_ ?_ ?_
  · intro _
    exact ⟨h1, hacc⟩
  · intro _ _
    refine ⟨Or.inl rfl, ?_⟩
    intro r hr
    rcases List.mem_append.mp hr with hr2 | hr2
    · exact hacc r hr2
    · rw [List.mem_singleton.mp hr2]
      exact h1
  · intro _ _
    exact ⟨h1, hacc⟩
  · intro _
    exact ⟨h1, hacc⟩
  · intro _
    exact ⟨h1, hacc⟩
  · intro _
    exact ⟨h1, hacc⟩
  · intro _ _
    exact ⟨h1, hacc⟩
  · intro _
    exact ⟨Or.inr rfl, hacc⟩
  · intro _ _ _ cl
    exact ⟨h1, hacc⟩
  · intro _ _ _
    exact ⟨h1, hacc⟩

theorem parse_c10_aux (ls : List Str) :
    ∀ (st : ParseState) (acc : List SlideRecord),
    (st.visual = none ∨ st.visual = some ⟨[], []⟩) →
    (∀ r ∈ acc, r.visual = none ∨ r.visual = some ⟨[], []⟩) →
    (((ls.foldl stepLine (st, acc)).1.visual = none ∨
      (ls.foldl stepLine (st, acc)).1.visual = some ⟨[], []⟩) ∧
     ∀ r ∈ (ls.foldl stepLine (st, acc)).2, r.visual = none ∨ r.visual = some ⟨[], []⟩) := by
  induction ls with
  | nil =>
    intro st acc h1 hacc
    exact ⟨h1, hacc⟩
  | cons l ls ih =>
    intro st acc h1 hacc
    rw [List.foldl_cons]
    obtain ⟨g1, g2⟩ := stepLine_c10 st acc l h1 hacc
    have hres := ih (stepLine (st, acc) l).1 (stepLine (st, acc) l).2 g1 g2
    rwa [Prod.mk.eta] at hres

/-- C10: in `_parse_outline` every line is whitespace-stripped before the
tests `line.startswith('  - **Type:**')` and `line.startswith('  -
**Data:**')`, whose required leading spaces can never survive stripping, so
those two branches are unreachable: every parsed record's `visual` is
either absent (no `**Visual:**` label seen) or exactly
`{'type': '', 'data': ''}` — no slide ever carries a populated visual type
or payload. -/
theorem claim_C10 (doc : Str) :
    ∀ r ∈ parse_outline doc, r.visual = none ∨ r.visual = some ⟨[], []⟩ := by
  obtain ⟨g1, g2⟩ := parse_c10_aux (splitNl doc) initState [] (Or.inl rfl) (by simp)
  intro r hr
  rw [parse_outline] at hr
  simp only [List.mem_append] at hr
  rcases hr with hr2 | hr2
  · exact g2 r hr2
  · by_cases hcur : curNonEmpty ((splitNl doc).foldl stepLine (initState, [])).1 = true
    · rw [if_pos hcur] at hr2
      rw [List.mem_singleton.mp hr2]
      exact g1
    · rw [if_neg hcur] at hr2
      simp at hr2

/-- C10 witness: the document `**Visual:**\n  - **Type:** Table` yields one
record whose visual is exactly `{'type': '', 'data': ''}` — the Type line
was stripped to `- **Type:** Table` and matched no branch. -/
theorem claim_C10_witness :
    (⟨none, none, none, some ⟨[], []⟩, []⟩ : SlideRecord).visual = none ∨
    (⟨none, none, none, some ⟨[], []⟩, []⟩ : SlideRecord).visual = some ⟨[], []⟩ :=
  claim_C10 (str "**Visual:**\n  - **Type:** Table")
    ⟨none, none, none, some ⟨[], []⟩, []⟩ (by decide)

/-- C7 (code defect witness): a block declaring a Table visual with a
well-formed payload parses to a record whose visual type and data are both
the empty string — the `'  - **Type:**'` / `'  - **Data:**'` tests require
two leading spaces that `line.strip()` already removed, so the payload is
dropped and no field can round-trip. -/
theorem claim_C7_bug :
    parse_outline
      (str "**Title:** T\n**Purpose:** Data\n**Visual:**\n  - **Type:** Table\n  - **Data:** caption: C, headers: [A], rows: [[r]]") =
      [⟨none, some (str "T"), some (str "Data"), some ⟨[], []⟩, []⟩] := by
  decide

/-! ## Lemmas for `final_cleanup` (C1, C2, C9) -/

theorem rstrip_append_close (x : Str) : rstrip (x ++ htmlClose) = x ++ htmlClose := by
  have e3 : htmlClose = str "</html" ++ ['>'] := by decide
  have e2 : x ++ htmlClose = (x ++ str "</html") ++ ['>'] := by
    rw [e3, List.append_assoc]
  rw [e2, rstrip_eq_self _ (by decide), ← e2]

theorem rstrip_append_nl (x : Str) : rstrip (x ++ nlHtmlClose) = x ++ nlHtmlClose := by
  have e3 : nlHtmlClose = str "\n</html" ++ ['>'] := by decide
  have e2 : x ++ nlHtmlClose = (x ++ str "\n</html") ++ ['>'] := by
    rw [e3, List.append_assoc]
  rw [e2, rstrip_eq_self _ (by decide), ← e2]

theorem pyStrip_doctype_close (x : Str) :
    pyStrip (doctype ++ (x ++ htmlClose)) = doctype ++ (x ++ htmlClose) := by
  have e1 : doctype ++ (x ++ htmlClose) = '<' :: (str "!DOCTYPE html>" ++ (x ++ htmlClose)) := rfl
  rw [pyStrip, e1, lstrip_eq_self _ (by decide), ← e1]
  have e2 : doctype ++ (x ++ htmlClose) = (doctype ++ x) ++ htmlClose := by
    rw [List.append_assoc]
  rw [e2, rstrip_append_close]

theorem finalizeDoc_some {content : Str} (hsuf : htmlClose <:+ content)
    (hpre : doctype <+: content ∨ htmlOpen <+: content) :
    finalizeDoc content = some content := by
  simp only [finalizeDoc]
  rw [if_pos (List.isSuffixOf_iff_suffix.mpr hsuf), if_pos]
  rcases hpre with h | h
  · simp [List.isPrefixOf_iff_prefix.mpr h]
  · simp [List.isPrefixOf_iff_prefix.mpr h]

/-- C1 counterexample: the input `a<!DOCTYPE html>```html x</html>b` has
the claimed shape (non-empty prefix `a`, suffix `b`, body ```` ```html x ````
free of `</html>`), but the markdown-fence substitution rewrites bytes
INSIDE the recovered boundaries: the result is `<!DOCTYPE html>x</html>`,
not `<!DOCTYPE html>```html x</html>`. -/
theorem claim_C1_cex :
    final_cleanup (str "a<!DOCTYPE html>```html x</html>b") =
      some (str "<!DOCTYPE html>x</html>") ∧
    some (str "<!DOCTYPE html>x</html>") ≠ some (str "<!DOCTYPE html>```html x</html>") := by
  refine ⟨by decide, by decide⟩

/-- C1 (amended): for raw completions `p ++ "<!DOCTYPE html>" ++ body ++
"</html>" ++ q` with non-empty `p`, `q`, provided additionally that the
input contains no markdown fence `` ``` `` (whose cleanup rewrites bytes),
that the start token's first occurrence is the canonical one (no occurrence
inside `p` or spanning its boundary), and that no case-insensitive
`</html>` occurs after the canonical one (inside `q` or spanning into it),
`final_cleanup` succeeds and returns exactly
`"<!DOCTYPE html>" ++ body ++ "</html>"`, every byte between the recovered
boundaries verbatim. -/
theorem claim_C1 (p body q : Str) (hp : p ≠ []) (hq : q ≠ [])
    (hfence : ¬ fence <:+: (p ++ doctype ++ body ++ htmlClose ++ q))
    (hstart : ¬ doctype <:+: (p ++ doctype.dropLast))
    (hbody : ¬ htmlClose <:+: body)
    (hend : ¬ htmlClose <:+: (str "/html>" ++ lowerStr q)) :
    final_cleanup (p ++ doctype ++ body ++ htmlClose ++ q) =
      some (doctype ++ body ++ htmlClose) := by
  have e : p ++ doctype ++ body ++ htmlClose ++ q =
      p ++ doctype ++ (body ++ (htmlClose ++ q)) := by
    simp [List.append_assoc]
  have hfind : findSub (p ++ doctype ++ body ++ htmlClose ++ q) doctype = some p.length := by
    rw [e]
    exact find_append (by decide) hstart
  have hlowclose : List.map lowerChar htmlClose = htmlClose := by decide
  have elow : lowerStr (p ++ doctype ++ body ++ htmlClose ++ q) =
      (lowerStr p ++ lowerStr doctype ++ lowerStr body) ++ htmlClose ++ lowerStr q := by
    simp only [lowerStr, List.map_append, hlowclose]
  have hdropclose : htmlClose.drop 1 = str "/html>" := by decide
  have hrfind : rfindSub (lowerStr (p ++ doctype ++ body ++ htmlClose ++ q)) htmlClose =
      some (p.length + (15 + body.length)) := by
    rw [elow]
    have h0 : rfindSub ((lowerStr p ++ lowerStr doctype ++ lowerStr body) ++ htmlClose ++ lowerStr q)
        htmlClose = some (lowerStr p ++ lowerStr doctype ++ lowerStr body).length := by
      refine rfind_append (by decide) ?_
      rw [hdropclose]
      exact hend
    rw [h0]
    congr 1
    have h15 : doctype.length = 15 := by decide
    simp [lowerStr, h15]
  have hslice : pySlice (p ++ doctype ++ body ++ htmlClose ++ q) p.length
      (p.length + (15 + body.length) + 7) = doctype ++ (body ++ htmlClose) := by
    rw [pySlice]
    have e2 : p ++ doctype ++ body ++ htmlClose ++ q =
        (p ++ doctype ++ body ++ htmlClose) ++ q := by
      simp [List.append_assoc]
    have hlen : (p ++ doctype ++ body ++ htmlClose).length = p.length + (15 + body.length) + 7 := by
      have h15 : doctype.length = 15 := by decide
      have h7 : htmlClose.length = 7 := by decide
      simp [List.length_append, h15, h7]
      omega
    rw [e2, List.take_left' hlen]
    have e3 : p ++ doctype ++ body ++ htmlClose = p ++ (doctype ++ (body ++ htmlClose)) := by
      simp [List.append_assoc]
    rw [e3, List.drop_left]
  simp only [final_cleanup, mdCleanup_id hfence, findStart, hfind, hrfind, hslice,
    pyStrip_doctype_close]
  have hsome := @finalizeDoc_some (doctype ++ (body ++ htmlClose))
    (by
      have e4 : doctype ++ (body ++ htmlClose) = (doctype ++ body) ++ htmlClose := by
        simp [List.append_assoc]
      rw [e4]
      exact List.suffix_append _ _)
    (Or.inl (List.prefix_append _ _))
  rw [hsome]
  simp [List.append_assoc]

/-- C1 witness: a concrete wrapped document is recovered exactly. -/
theorem claim_C1_witness :
    final_cleanup (str "x\n<!DOCTYPE html>B</html>y") = some (str "<!DOCTYPE html>B</html>") := by
  have h := claim_C1 (str "x\n") (str "B") (str "y") (by decide) (by decide) (by decide)
    (by decide) (by decide) (by decide)
  have e1 : str "x\n" ++ doctype ++ str "B" ++ htmlClose ++ str "y" =
      str "x\n<!DOCTYPE html>B</html>y" := by decide
  have e2 : doctype ++ str "B" ++ htmlClose = str "<!DOCTYPE html>B</html>" := by decide
  rw [e1, e2] at h
  exact h

theorem findStart_some {raw : Str} {s : Nat} (h : findStart raw = some s) :
    doctype <+: raw.drop s ∨ htmlOpen <+: raw.drop s := by
  rw [findStart] at h
  cases hf : findSub raw doctype with
  | some p =>
    rw [hf] at h
    obtain rfl : p = s := by simpa using h
    exact Or.inl (findSub_eq_some_iff.mp hf).1
  | none =>
    rw [hf] at h
    exact Or.inr (findSub_eq_some_iff.mp h).1

theorem drop_head_lt {raw : Str} {s : Nat}
    (h : doctype <+: raw.drop s ∨ htmlOpen <+: raw.drop s) :
    ∃ t, raw.drop s = '<' :: t := by
  rcases h with ⟨u, hu⟩ | ⟨u, hu⟩
  · refine ⟨str "!DOCTYPE html>" ++ u, ?_⟩
    rw [← hu]
    rfl
  · refine ⟨str "html" ++ u, ?_⟩
    rw [← hu]
    rfl

theorem pyStrip_lt_nl (t : Str) :
    pyStrip (('<' :: t) ++ nlHtmlClose) = ('<' :: t) ++ nlHtmlClose := by
  rw [pyStrip, List.cons_append, lstrip_eq_self _ (by decide), ← List.cons_append,
    rstrip_append_nl]

theorem close_suffix_nl (x : Str) : htmlClose <:+ x ++ nlHtmlClose := by
  have e2 : nlHtmlClose = ['\n'] ++ htmlClose := by decide
  have e : x ++ nlHtmlClose = (x ++ ['\n']) ++ htmlClose := by
    rw [e2, List.append_assoc]
  rw [e]
  exact List.suffix_append _ _

/-- C2 counterexample: for the spec's own scenario
`"Here you go:\n<!DOCTYPE html><html><body>Hi</body>"` the code splices in
`"\n</html>"` (newline included) after the last `</body>`, so the result is
`"...</body>\n</html>"`, not the claimed `"...</body></html>"`. -/
theorem claim_C2_cex :
    final_cleanup (str "Here you go:\n<!DOCTYPE html><html><body>Hi</body>") =
      some (str "<!DOCTYPE html><html><body>Hi</body>\n</html>") ∧
    some (str "<!DOCTYPE html><html><body>Hi</body>\n</html>") ≠
      some (str "<!DOCTYPE html><html><body>Hi</body></html>") := by
  refine ⟨by decide, by decide⟩

/-- C2 (amended): for every raw completion free of markdown fences that
contains a start token (first `<!DOCTYPE html>`, else first `<html`, at
offset `s`) and no case-insensitive `</html>`, `final_cleanup` does not
fail: if a case-insensitive `</body>` occurs (last occurrence at `b`, with
the start token entirely before it), the code splices `"\n</html>"` —
newline included — immediately after that `</body>` and returns the text
from the start token through the spliced tag, dropping what followed
`</body>`; otherwise it appends `"\n</html>"` at the very end and returns
the text from the start token onward. -/
theorem claim_C2 (raw : Str) (s : Nat)
    (hfence : ¬ fence <:+: raw)
    (hstart : findStart raw = some s)
    (hnoend : ¬ htmlClose <:+: lowerStr raw)
    (hb : ∀ b, rfindSub (lowerStr raw) bodyClose = some b → s + 8 ≤ b) :
    final_cleanup raw =
      some (match rfindSub (lowerStr raw) bodyClose with
            | some b => pySlice raw s (b + 7) ++ nlHtmlClose
            | none => raw.drop s ++ nlHtmlClose) := by
  have hclose_none : rfindSub (lowerStr raw) htmlClose = none :=
    rfindSub_eq_none_iff_not_sub.mpr hnoend
  have htok := findStart_some hstart
  obtain ⟨t, ht⟩ := drop_head_lt htok
  have htokpre : ∀ y, doctype <+: raw.drop s ++ y ∨ htmlOpen <+: raw.drop s ++ y := by
    intro y
    rcases htok with h | h
    · exact Or.inl (h.trans (List.prefix_append _ _))
    · exact Or.inr (h.trans (List.prefix_append _ _))
  cases hbod : rfindSub (lowerStr raw) bodyClose with
  | none =>
    have hslen : s ≤ raw.length := by
      rcases htok with h | h
      · have := h.length_le
        simp at this
        have h15 : doctype.length = 15 := by decide
        omega
      · have := h.length_le
        simp at this
        have h5 : htmlOpen.length = 5 := by decide
        omega
    have hslice : pySlice (raw ++ nlHtmlClose) s (raw ++ nlHtmlClose).length =
        raw.drop s ++ nlHtmlClose := by
      rw [pySlice, List.take_length, List.drop_append_of_le_length hslen]
    have hstrip : pyStrip (raw.drop s ++ nlHtmlClose) = raw.drop s ++ nlHtmlClose := by
      rw [ht]
      exact pyStrip_lt_nl t
    simp only [final_cleanup, mdCleanup_id hfence, hstart, hclose_none, hbod, hslice, hstrip]
    rw [finalizeDoc_some (close_suffix_nl _) (htokpre nlHtmlClose)]
  | some b =>
    have hsb := hb b hbod
    obtain ⟨hbpre, -⟩ := (rfindSub_eq_some_iff (by decide)).mp hbod
    have hblen : b + 7 ≤ raw.length := by
      have h1 := hbpre.length_le
      have h7 : bodyClose.length = 7 := by decide
      simp [lowerStr] at h1
      omega
    have htake : ((raw.take (b + 7) ++ nlHtmlClose) ++ raw.drop (b + 7)).take (b + 15) =
        raw.take (b + 7) ++ nlHtmlClose := by
      refine List.take_left' ?_
      have h8 : nlHtmlClose.length = 8 := by decide
      simp [h8]
      omega
    have hdrop : (raw.take (b + 7) ++ nlHtmlClose).drop s =
        (raw.take (b + 7)).drop s ++ nlHtmlClose := by
      refine List.drop_append_of_le_length ?_
      simp
      omega
    have hdt : (raw.take (b + 7)).drop s = ('<' :: t).take (b + 7 - s) := by
      rw [List.drop_take, ht]
    have hlt : ('<' :: t).take (b + 7 - s) = '<' :: t.take (b + 7 - s - 1) := by
      have hpos : 1 ≤ b + 7 - s := by omega
      obtain ⟨k, hk⟩ : ∃ k, b + 7 - s = k + 1 := ⟨b + 7 - s - 1, by omega⟩
      rw [hk, List.take_succ_cons]
      simp
    have hstrip : pyStrip ((raw.take (b + 7)).drop s ++ nlHtmlClose) =
        (raw.take (b + 7)).drop s ++ nlHtmlClose := by
      rw [hdt, hlt]
      exact pyStrip_lt_nl _
    have hpre2 : doctype <+: (raw.take (b + 7)).drop s ++ nlHtmlClose ∨
        htmlOpen <+: (raw.take (b + 7)).drop s ++ nlHtmlClose := by
      have hdt2 : (raw.take (b + 7)).drop s = (raw.drop s).take (b + 7 - s) :=
        List.drop_take ..
      rcases htok with h | h
      · refine Or.inl ((preTakeOf h (b + 7 - s) ?_).trans ?_)
        · have h15 : doctype.length = 15 := by decide
          omega
        · rw [← hdt2]
          exact List.prefix_append _ _
      · refine Or.inr ((preTakeOf h (b + 7 - s) ?_).trans ?_)
        · have h5 : htmlOpen.length = 5 := by decide
          omega
        · rw [← hdt2]
          exact List.prefix_append _ _
    simp only [final_cleanup, mdCleanup_id hfence, hstart, hclose_none, hbod, pySlice,
      htake, hdrop, hstrip]
    rw [finalizeDoc_some (close_suffix_nl _) hpre2]

/-- C2 witness: the spec's scenario input, through the amended statement:
the document is recovered with the spliced `"\n</html>"`. -/
theorem claim_C2_witness :
    final_cleanup (str "Here you go:\n<!DOCTYPE html><html><body>Hi</body>") =
      some (str "<!DOCTYPE html><html><body>Hi</body>\n</html>") := by
  have h := claim_C2 (str "Here you go:\n<!DOCTYPE html><html><body>Hi</body>") 13
    (by decide) (by decide) (by decide)
    (by
      intro b hb2
      have hval : rfindSub (lowerStr (str "Here you go:\n<!DOCTYPE html><html><body>Hi</body>"))
          bodyClose = some 42 := by decide
      rw [hval] at hb2
      have : b = 42 := by simpa using hb2.symm
      omega)
  rw [h]
  decide

/-! ## Idempotence analysis for `final_cleanup` (C9) -/

theorem rstrip_append_of_last {a : Str} {d : Char} (hd : isPyWs d = false) (b : Str) :
    rstrip ((a ++ [d]) ++ b) = (a ++ [d]) ++ rstrip b := by
  rw [rstrip, List.reverse_append, List.reverse_append]
  simp only [List.reverse_cons, List.reverse_nil, List.nil_append, List.singleton_append]
  rw [List.dropWhile_append]
  by_cases hb : (b.reverse.dropWhile isPyWs).isEmpty = true
  · rw [if_pos hb]
    rw [List.dropWhile_cons, if_neg (by simp [hd])]
    have hbnil : b.reverse.dropWhile isPyWs = [] := List.isEmpty_iff.mp hb
    rw [rstrip, hbnil]
    simp
  · rw [if_neg hb]
    rw [List.reverse_append, rstrip]
    simp

theorem pyStrip_doctype_any (v : Str) : pyStrip (doctype ++ v) = doctype ++ rstrip v := by
  have e1 : doctype ++ v = '<' :: (str "!DOCTYPE html>" ++ v) := rfl
  rw [pyStrip, e1, lstrip_eq_self _ (by decide), ← e1]
  have e2 : doctype = str "<!DOCTYPE html" ++ ['>'] := by decide
  rw [e2, rstrip_append_of_last (by decide)]

theorem pyStrip_htmlopen_any (v : Str) : pyStrip (htmlOpen ++ v) = htmlOpen ++ rstrip v := by
  have e1 : htmlOpen ++ v = '<' :: (str "html" ++ v) := rfl
  rw [pyStrip, e1, lstrip_eq_self _ (by decide), ← e1]
  have e2 : htmlOpen = str "<htm" ++ ['l'] := by decide
  rw [e2, rstrip_append_of_last (by decide)]

theorem pyStrip_strip_append_nl (x : Str) (hne : pyStrip x ≠ []) :
    pyStrip (pyStrip x ++ nlHtmlClose) = pyStrip x ++ nlHtmlClose := by
  cases hx : pyStrip x with
  | nil => exact absurd hx hne
  | cons c t =>
    have hc : isPyWs c = false := pyStrip_head hx
    rw [pyStrip]
    rw [show (c :: t) ++ nlHtmlClose = c :: (t ++ nlHtmlClose) from rfl]
    rw [lstrip_eq_self _ hc]
    show rstrip ((c :: t) ++ nlHtmlClose) = (c :: t) ++ nlHtmlClose
    exact rstrip_append_nl (c :: t)

theorem finalizeDoc_facts {x D : Str} (h : finalizeDoc (pyStrip x) = some D) :
    pyStrip D = D ∧ htmlClose <:+ D ∧
      (doctype.isPrefixOf D || htmlOpen.isPrefixOf D) = true ∧
      (D = pyStrip x ∨ D = pyStrip x ++ nlHtmlClose) := by
  simp only [finalizeDoc] at h
  by_cases hsuf : htmlClose.isSuffixOf (pyStrip x) = true
  · rw [if_pos hsuf] at h
    by_cases hpre : (doctype.isPrefixOf (pyStrip x) || htmlOpen.isPrefixOf (pyStrip x)) = true
    · rw [if_pos hpre] at h
      obtain rfl : pyStrip x = D := by simpa using h
      exact ⟨pyStrip_idem x, List.isSuffixOf_iff_suffix.mp hsuf, hpre, Or.inl rfl⟩
    · rw [if_neg hpre] at h
      cases h
  · rw [if_neg hsuf] at h
    by_cases hpre : (doctype.isPrefixOf (pyStrip x ++ nlHtmlClose) ||
        htmlOpen.isPrefixOf (pyStrip x ++ nlHtmlClose)) = true
    · rw [if_pos hpre] at h
      obtain rfl : pyStrip x ++ nlHtmlClose = D := by simpa using h
      have hne : pyStrip x ≠ [] := by
        intro h0
        rw [h0] at hpre
        simp only [List.nil_append] at hpre
        have : (doctype.isPrefixOf nlHtmlClose || htmlOpen.isPrefixOf nlHtmlClose) = false := by
          decide
        rw [this] at hpre
        cases hpre
      exact ⟨pyStrip_strip_append_nl x hne, close_suffix_nl _, hpre, Or.inr rfl⟩
    · rw [if_neg hpre] at h
      cases h

theorem pySlice_infix_self (s : Str) (a b : Nat) : pySlice s a b <:+: s := by
  rw [pySlice]
  exact ((List.drop_suffix a (s.take b)).isInfix).trans
    ⟨[], s.drop b, by simp [List.take_append_drop]⟩

theorem infix_append_cons_split {pat A : Str} {c : Char} {B : Str}
    (h : pat <:+: A ++ (c :: B)) : pat <:+: A ∨ c ∈ pat ∨ pat <:+: (c :: B) := by
  obtain ⟨i, hi⟩ := infix_iff_exists_drop.mp h
  rcases le_or_lt A.length i with hge | hlt
  · obtain ⟨j, rfl⟩ : ∃ j, i = A.length + j := ⟨i - A.length, by omega⟩
    rw [List.drop_append] at hi
    refine Or.inr (Or.inr ?_)
    exact infix_iff_exists_drop.mpr ⟨j, hi⟩
  · rw [List.drop_append_of_le_length (by omega)] at hi
    rcases le_or_lt pat.length (A.length - i) with hle | hgt
    · refine Or.inl ?_
      have hple : pat <+: A.drop i := preOfAppendLe hi (by simp; omega)
      exact infix_iff_exists_drop.mpr ⟨i, hple⟩
    · refine Or.inr (Or.inl ?_)
      have hxp : A.drop i <+: pat :=
        preOfPreLe (List.prefix_append _ _) hi (by simp; omega)
      obtain ⟨t, ht⟩ := hxp
      obtain ⟨w, hw⟩ := hi
      have htb : t ++ w = c :: B := by
        have h1 : (A.drop i ++ t) ++ w = A.drop i ++ (c :: B) := by
          rw [ht, hw]
        rw [List.append_assoc] at h1
        exact List.append_cancel_left h1
      have htne : t ≠ [] := by
        intro h0
        have := congrArg List.length ht
        rw [h0] at this
        simp at this
        omega
      cases t with
      | nil => exact absurd rfl htne
      | cons d t2 =>
        have hdc : d = c := by
          have h2 := htb
          simp only [List.cons_append, List.cons.injEq] at h2
          exact h2.1
        rw [← ht, hdc]
        simp

theorem no_doctype_after_nl {B : Str} (hB : ¬ doctype <:+: B) :
    ¬ doctype <:+: (nlHtmlClose ++ B) := by
  intro hh
  obtain ⟨i, hi⟩ := infix_iff_exists_drop.mp hh
  rcases le_or_lt 8 i with hge | hlt
  · obtain ⟨j, rfl⟩ : ∃ j, i = 8 + j := ⟨i - 8, by omega⟩
    have h8 : nlHtmlClose.length = 8 := by decide
    rw [← h8, List.drop_append] at hi
    exact hB (infix_iff_exists_drop.mpr ⟨j, hi⟩)
  · have h8 : nlHtmlClose.length = 8 := by decide
    rw [List.drop_append_of_le_length (by omega)] at hi
    have hwpre : nlHtmlClose.drop i <+: doctype := by
      refine preOfPreLe (List.prefix_append _ _) hi ?_
      have h15 : doctype.length = 15 := by decide
      simp [h8, h15]
      omega
    have hF : ∀ j, j < 8 → ¬ (nlHtmlClose.drop j <+: doctype) := by decide
    exact hF i hlt hwpre

theorem no_doctype_mid_nl {A B : Str} (hA : ¬ doctype <:+: A) (hB : ¬ doctype <:+: B) :
    ¬ doctype <:+: (A ++ (nlHtmlClose ++ B)) := by
  intro hh
  have e : nlHtmlClose ++ B = '\n' :: (str "</html>" ++ B) := rfl
  rw [e] at hh
  rcases infix_append_cons_split hh with h1 | h1 | h1
  · exact hA h1
  · exact absurd h1 (by decide)
  · rw [← e] at h1
    exact no_doctype_after_nl hB h1

theorem no_doctype_append_nl {A : Str} (hA : ¬ doctype <:+: A) :
    ¬ doctype <:+: (A ++ nlHtmlClose) := by
  have h0 : ¬ doctype <:+: ([] : Str) := by decide
  have h1 := no_doctype_mid_nl hA h0
  simpa using h1

theorem no_doctype_strip {x : Str} (h : ¬ doctype <:+: x) : ¬ doctype <:+: pyStrip x :=
  fun hh => h (hh.trans (pyStrip_infix_self x))

theorem no_doctype_D {x D : Str} (hx : ¬ doctype <:+: x)
    (hD : D = pyStrip x ∨ D = pyStrip x ++ nlHtmlClose) : ¬ doctype <:+: D := by
  rcases hD with rfl | rfl
  · exact no_doctype_strip hx
  · exact no_doctype_append_nl (no_doctype_strip hx)

theorem tok_cases_pre {tok : Str} (htok : tok = doctype ∨ tok = htmlOpen)
    {u : Str} {n : Nat} {D : Str}
    (h : finalizeDoc (pyStrip ((tok ++ u).take n)) = some D) : tok <+: D := by
  rcases le_or_lt tok.length n with hle | hlt
  · obtain ⟨j, rfl⟩ : ∃ j, n = tok.length + j := ⟨n - tok.length, by omega⟩
    rw [List.take_append] at h
    have hstrip : pyStrip (tok ++ u.take j) = tok ++ rstrip (u.take j) := by
      rcases htok with rfl | rfl
      · exact pyStrip_doctype_any _
      · exact pyStrip_htmlopen_any _
    obtain ⟨-, -, -, hD⟩ := finalizeDoc_facts h
    rcases hD with rfl | rfl
    · rw [hstrip]
      exact List.prefix_append _ _
    · rw [hstrip, List.append_assoc]
      exact List.prefix_append _ _
  · rw [List.take_append_of_le_length (by omega)] at h
    exfalso
    rcases htok with rfl | rfl
    · have hA : ∀ m, m < 15 → finalizeDoc (pyStrip (doctype.take m)) = none := by decide
      have h15 : doctype.length = 15 := by decide
      rw [hA n (by omega)] at h
      cases h
    · have hC : ∀ m, m < 5 → finalizeDoc (pyStrip (htmlOpen.take m)) = none := by decide
      have h5 : htmlOpen.length = 5 := by decide
      rw [hC n (by omega)] at h
      cases h

theorem tok_cases_pre_nl {tok : Str} (htok : tok = doctype ∨ tok = htmlOpen)
    {u : Str} {n : Nat} {D : Str}
    (h : finalizeDoc (pyStrip ((tok ++ u).take n ++ nlHtmlClose)) = some D) : tok <+: D := by
  rcases le_or_lt tok.length n with hle | hlt
  · obtain ⟨j, rfl⟩ : ∃ j, n = tok.length + j := ⟨n - tok.length, by omega⟩
    rw [List.take_append, List.append_assoc] at h
    have hstrip : pyStrip (tok ++ (u.take j ++ nlHtmlClose)) =
        tok ++ rstrip (u.take j ++ nlHtmlClose) := by
      rcases htok with rfl | rfl
      · exact pyStrip_doctype_any _
      · exact pyStrip_htmlopen_any _
    obtain ⟨-, -, -, hD⟩ := finalizeDoc_facts h
    rcases hD with rfl | rfl
    · rw [hstrip]
      exact List.prefix_append _ _
    · rw [hstrip, List.append_assoc]
      exact List.prefix_append _ _
  · rw [List.take_append_of_le_length (by omega)] at h
    exfalso
    rcases htok with rfl | rfl
    · have hB : ∀ m, m < 15 →
          finalizeDoc (pyStrip (doctype.take m ++ nlHtmlClose)) = none := by decide
      have h15 : doctype.length = 15 := by decide
      rw [hB n (by omega)] at h
      cases h
    · have hD5 : ∀ m, m < 5 →
          finalizeDoc (pyStrip (htmlOpen.take m ++ nlHtmlClose)) = none := by decide
      have h5 : htmlOpen.length = 5 := by decide
      rw [hD5 n (by omega)] at h
      cases h

theorem tok_append_nl_pre {tok : Str} (htok : tok = doctype ∨ tok = htmlOpen)
    {u : Str} {D : Str}
    (h : finalizeDoc (pyStrip ((tok ++ u) ++ nlHtmlClose)) = some D) : tok <+: D := by
  rw [List.append_assoc] at h
  have hstrip : pyStrip (tok ++ (u ++ nlHtmlClose)) = tok ++ rstrip (u ++ nlHtmlClose) := by
    rcases htok with rfl | rfl
    · exact pyStrip_doctype_any _
    · exact pyStrip_htmlopen_any _
  obtain ⟨-, -, -, hD⟩ := finalizeDoc_facts h
  rcases hD with rfl | rfl
  · rw [hstrip]
    exact List.prefix_append _ _
  · rw [hstrip, List.append_assoc]
    exact List.prefix_append _ _

theorem finalize_nl_drop_none (j : Nat) : finalizeDoc (pyStrip (nlHtmlClose.drop j)) = none := by
  rcases le_or_lt j 8 with hle | hgt
  · have hE : ∀ i, i ≤ 8 → finalizeDoc (pyStrip (nlHtmlClose.drop i)) = none := by decide
    exact hE j hle
  · have h8 : nlHtmlClose.length = 8 := by decide
    have he : nlHtmlClose.drop j = [] := List.drop_eq_nil_of_le (by omega)
    rw [he]
    decide

theorem canonical_branch1 {c3 D : Str} {start e : Nat}
    (htoki : doctype <+: c3.drop start ∨ (¬ doctype <:+: c3 ∧ htmlOpen <+: c3.drop start))
    (h : finalizeDoc (pyStrip (pySlice c3 start e)) = some D) :
    doctype <+: D ∨ (¬ doctype <:+: D ∧ htmlOpen <+: D) := by
  rcases htoki with hpre | ⟨hno, hpre⟩
  · obtain ⟨u, hu⟩ := hpre
    have hsl : pySlice c3 start e = (doctype ++ u).take (e - start) := by
      rw [pySlice, List.drop_take, ← hu]
    rw [hsl] at h
    exact Or.inl (tok_cases_pre (Or.inl rfl) h)
  · obtain ⟨u, hu⟩ := hpre
    have hsl : pySlice c3 start e = (htmlOpen ++ u).take (e - start) := by
      rw [pySlice, List.drop_take, ← hu]
    have hxno : ¬ doctype <:+: ((htmlOpen ++ u).take (e - start)) := by
      rw [← hsl]
      exact fun hh => hno (hh.trans (pySlice_infix_self c3 start e))
    rw [hsl] at h
    obtain ⟨-, -, -, hDeq⟩ := finalizeDoc_facts h
    exact Or.inr ⟨no_doctype_D hxno hDeq, tok_cases_pre (Or.inr rfl) h⟩

theorem canonical_branch2 {c3 D : Str} {start b : Nat}
    (hble : b + 7 ≤ c3.length)
    (htoki : doctype <+: c3.drop start ∨ (¬ doctype <:+: c3 ∧ htmlOpen <+: c3.drop start))
    (h : finalizeDoc (pyStrip (pySlice (c3.take (b + 7) ++ nlHtmlClose ++ c3.drop (b + 7))
          start (b + 15))) = some D) :
    doctype <+: D ∨ (¬ doctype <:+: D ∧ htmlOpen <+: D) := by
  have h8 : nlHtmlClose.length = 8 := by decide
  have htake : (c3.take (b + 7) ++ nlHtmlClose ++ c3.drop (b + 7)).take (b + 15) =
      c3.take (b + 7) ++ nlHtmlClose := by
    refine List.take_left' ?_
    simp [h8]
    omega
  rw [pySlice, htake] at h
  rcases le_or_lt start (b + 7) with hsle | hsgt
  · rw [List.drop_append_of_le_length (by simp; omega)] at h
    rcases htoki with hpre | ⟨hno, hpre⟩
    · obtain ⟨u, hu⟩ := hpre
      have hdt : (c3.take (b + 7)).drop start = (doctype ++ u).take (b + 7 - start) := by
        rw [List.drop_take, ← hu]
      rw [hdt] at h
      exact Or.inl (tok_cases_pre_nl (Or.inl rfl) h)
    · obtain ⟨u, hu⟩ := hpre
      have hdt : (c3.take (b + 7)).drop start = (htmlOpen ++ u).take (b + 7 - start) := by
        rw [List.drop_take, ← hu]
      have hxno : ¬ doctype <:+: ((htmlOpen ++ u).take (b + 7 - start) ++ nlHtmlClose) := by
        rw [← hdt]
        refine no_doctype_append_nl ?_
        exact fun hh => hno (hh.trans (pySlice_infix_self c3 start (b + 7)))
      rw [hdt] at h
      obtain ⟨-, -, -, hDeq⟩ := finalizeDoc_facts h
      exact Or.inr ⟨no_doctype_D hxno hDeq, tok_cases_pre_nl (Or.inr rfl) h⟩
  · rw [List.drop_append_eq_append_drop] at h
    rw [List.drop_eq_nil_of_le (by simp; omega), List.nil_append] at h
    rw [finalize_nl_drop_none] at h
    cases h

theorem canonical_branch3 {c3 D : Str} {start : Nat}
    (htoki : doctype <+: c3.drop start ∨ (¬ doctype <:+: c3 ∧ htmlOpen <+: c3.drop start))
    (h : finalizeDoc (pyStrip (pySlice (c3 ++ nlHtmlClose) start
          (c3 ++ nlHtmlClose).length)) = some D) :
    doctype <+: D ∨ (¬ doctype <:+: D ∧ htmlOpen <+: D) := by
  rw [pySlice, List.take_length] at h
  rcases htoki with hpre | ⟨hno, hpre⟩
  · obtain ⟨u, hu⟩ := hpre
    have hslen : start ≤ c3.length := by
      have hd := congrArg List.length hu
      simp at hd
      have h15 : doctype.length = 15 := by decide
      omega
    rw [List.drop_append_of_le_length hslen, ← hu] at h
    exact Or.inl (tok_append_nl_pre (Or.inl rfl) h)
  · obtain ⟨u, hu⟩ := hpre
    have hslen : start ≤ c3.length := by
      have hd := congrArg List.length hu
      simp at hd
      have h5 : htmlOpen.length = 5 := by decide
      omega
    have hxno0 : ¬ doctype <:+: (htmlOpen ++ u) := by
      rw [hu]
      exact fun hh => hno (hh.trans (List.drop_suffix _ _).isInfix)
    rw [List.drop_append_of_le_length hslen, ← hu] at h
    obtain ⟨-, -, -, hDeq⟩ := finalizeDoc_facts h
    exact Or.inr ⟨no_doctype_D (no_doctype_append_nl hxno0) hDeq, tok_append_nl_pre (Or.inr rfl) h⟩

theorem final_cleanup_canonical {raw D : Str} (h : final_cleanup raw = some D) :
    pyStrip D = D ∧ htmlClose <:+ D ∧
      (doctype <+: D ∨ (¬ doctype <:+: D ∧ htmlOpen <+: D)) := by
  simp only [final_cleanup] at h
  cases hs : findStart (mdCleanup raw) with
  | none =>
    simp only [hs] at h
    cases h
  | some start =>
    simp only [hs] at h
    have htoki : doctype <+: (mdCleanup raw).drop start ∨
        (¬ doctype <:+: mdCleanup raw ∧ htmlOpen <+: (mdCleanup raw).drop start) := by
      have hs2 := hs
      rw [findStart] at hs2
      cases hf2 : findSub (mdCleanup raw) doctype with
      | some p =>
        rw [hf2] at hs2
        obtain rfl : p = start := by simpa using hs2
        exact Or.inl (findSub_eq_some_iff.mp hf2).1
      | none =>
        rw [hf2] at hs2
        exact Or.inr ⟨findSub_eq_none_iff_not_sub.mp hf2, (findSub_eq_some_iff.mp hs2).1⟩
    cases hcl : rfindSub (lowerStr (mdCleanup raw)) htmlClose with
    | some le =>
      simp only [hcl] at h
      obtain ⟨h1, h2, -, -⟩ := finalizeDoc_facts h
      exact ⟨h1, h2, canonical_branch1 htoki h⟩
    | none =>
      simp only [hcl] at h
      cases hbd : rfindSub (lowerStr (mdCleanup raw)) bodyClose with
      | some b =>
        simp only [hbd] at h
        have hble : b + 7 ≤ (mdCleanup raw).length := by
          obtain ⟨hbpre, -⟩ := (rfindSub_eq_some_iff (by decide)).mp hbd
          have h7 : bodyClose.length = 7 := by decide
          have hl := hbpre.length_le
          simp [lowerStr] at hl
          omega
        obtain ⟨h1, h2, -, -⟩ := finalizeDoc_facts h
        exact ⟨h1, h2, canonical_branch2 hble htoki h⟩
      | none =>
        simp only [hbd] at h
        obtain ⟨h1, h2, -, -⟩ := finalizeDoc_facts h
        exact ⟨h1, h2, canonical_branch3 htoki h⟩

theorem cleanup_of_canonical {D : Str} (hf : ¬ fence <:+: D) (h1 : pyStrip D = D)
    (h2 : htmlClose <:+ D)
    (h3 : doctype <+: D ∨ (¬ doctype <:+: D ∧ htmlOpen <+: D)) :
    final_cleanup D = some D := by
  have hfindstart : findStart D = some 0 := by
    rw [findStart]
    rcases h3 with h | ⟨hno, hpre⟩
    · rw [findSub_of_pre h]
    · rw [findSub_eq_none_iff_not_sub.mpr hno, findSub_of_pre hpre]
  have hmapclose : List.map lowerChar htmlClose = htmlClose := by decide
  have hlsuf : htmlClose <:+ lowerStr D := by
    obtain ⟨w, hw⟩ := h2
    refine ⟨lowerStr w, ?_⟩
    rw [← hw]
    simp [lowerStr, List.map_append, hmapclose]
  have h7 : htmlClose.length = 7 := by decide
  have h7le : 7 ≤ D.length := by
    have := h2.length_le
    omega
  have hrf : rfindSub (lowerStr D) htmlClose = some (D.length - 7) := by
    rw [rfind_of_suffix (by decide) hlsuf]
    congr 1
    simp [lowerStr, h7]
  have he : D.length - 7 + 7 = D.length := by omega
  simp only [final_cleanup, mdCleanup_id hf, hfindstart, hrf, he, pySlice, List.take_length,
    List.drop_zero, h1]
  refine finalizeDoc_some h2 ?_
  rcases h3 with h | ⟨-, hpre⟩
  · exact Or.inl h
  · exact Or.inr hpre

/-- C9 counterexample: `final_cleanup` is not idempotent. On
`<!DOCTYPE html>````html``html x</html>` the first fence substitution
leaves behind a newly formed `` ```html `` (re.sub does not re-scan), so
the first run returns a document still containing a fence, and the second
run strips it, producing a different document. -/
theorem claim_C9_cex :
    final_cleanup (str "<!DOCTYPE html>````html``html x</html>") =
      some (str "<!DOCTYPE html>```html x</html>") ∧
    final_cleanup (str "<!DOCTYPE html>```html x</html>") =
      some (str "<!DOCTYPE html>x</html>") ∧
    (str "<!DOCTYPE html>```html x</html>") ≠ (str "<!DOCTYPE html>x</html>") := by
  refine ⟨by decide, by decide, by decide⟩

/-- C9 (amended): `final_cleanup` is idempotent on every successful output
that contains no markdown fence `` ``` ``: if `final_cleanup raw = some D`
and `D` is fence-free, then `final_cleanup D = some D`. (A successful
output is already stripped, ends with `</html>`, and starts with the start
token the second run re-anchors on.) -/
theorem claim_C9 (raw D : Str) (h : final_cleanup raw = some D)
    (hf : ¬ fence <:+: D) : final_cleanup D = some D := by
  obtain ⟨h1, h2, h3⟩ := final_cleanup_canonical h
  exact cleanup_of_canonical hf h1 h2 h3

/-- C9 witness: a concrete recovered document is a fixed point. -/
theorem claim_C9_witness :
    final_cleanup (str "<!DOCTYPE html>k</html>") = some (str "<!DOCTYPE html>k</html>") :=
  claim_C9 (str "z<!DOCTYPE html>k</html>") (str "<!DOCTYPE html>k</html>")
    (by decide) (by decide)
